import Mathlib

/-!
# Verification development for `kokizzu/rand`

Shallow embedding of

* the two formulations of the 32-bit bounded draw compared by
  `TestRand_Uint32nOpt` (`rand_test.go`);
* the Ziggurat exponential sampler `ExpFloat64` with its tables `ke`, `we`,
  `fe` (`math_exp.go`);
* the bit engine, state codec, byte reader and bounded samplers, whose source
  file is not among the sources and which are modelled from the specification.

Machine integers are natural numbers reduced modulo `2 ^ w` wherever the Go
code truncates.  `float64` values are modelled twice: `expIter` computes in
exact rational arithmetic on the decimal literals listed in the source, with
`math.Log` and `math.Exp` as parameters, and `expIterF` leaves the whole
`float64` arithmetic as a parameter; the first is the second taken at the exact
operations (`expIter_eq_expIterF`).
-/

namespace rand

/-! ## Go conversions -/

/-- Go conversion `uint32(x)`: keep the low 32 bits. -/
def uint32 (x : Nat) : Nat := x % 2 ^ 32

/-- Go conversion `uint64(x)`: keep the low 64 bits. -/
def uint64 (x : Nat) : Nat := x % 2 ^ 64

/-! ## `math/bits` primitives used by the test -/

namespace bits

/-- Go `bits.Mul32(x, y)`: the 64-bit product of two 32-bit operands, split
into its high and low 32-bit halves `(hi, lo)`. -/
def Mul32 (x y : Nat) : Nat × Nat :=
  let tmp := uint64 (uint32 x * uint32 y)
  (uint32 (tmp >>> 32), uint32 tmp)

/-- Go `bits.Add32(x, y, carry)`: 32-bit sum with carry, returned as
`(sum, carryOut)`. -/
def Add32 (x y carry : Nat) : Nat × Nat :=
  let sum64 := uint32 x + uint32 y + uint32 carry
  (uint32 sum64, uint32 (sum64 >>> 32))

/-- Go `bits.Mul64(x, y)`, by its documented contract: the 128-bit product of
two 64-bit operands, split into its high and low 64-bit halves `(hi, lo)`. -/
def Mul64 (x y : Nat) : Nat × Nat :=
  let p := uint64 x * uint64 y
  (uint64 (p >>> 64), uint64 p)

end bits

/-! ## The two formulations compared by `TestRand_Uint32nOpt` -/

/-- Optimised formulation in `TestRand_Uint32nOpt`: the value of `res` after
`res += carry`. -/
def uint32nOpt (n v : Nat) : Nat :=
  let (res, frac) := bits.Mul32 n (uint32 (v >>> 32))
  let (hi, _) := bits.Mul32 n (uint32 v)
  let (_, carry) := bits.Add32 frac hi 0
  uint32 (res + carry)

/-- The high half `res2` in `TestRand_Uint32nOpt`:
`res2, _ := bits.Mul64(uint64(n), v)`. -/
def res2 (n v : Nat) : Nat := (bits.Mul64 (uint64 n) v).1

/-- General formulation in `TestRand_Uint32nOpt`: `uint32(res2)`. -/
def uint32nGeneral (n v : Nat) : Nat := uint32 (res2 n v)

/-- Number of 64-bit raw words `v` that the reduction `v ↦ res2 n v` sends to
`k`. -/
def preimageCount (n k : Nat) : Nat :=
  ((Finset.range (2 ^ 64)).filter (fun v => res2 n v = k)).card

/-- Division rounding up. -/
def ceilDiv (a n : Nat) : Nat := (a + n - 1) / n

/-! ## Tables of `math_exp.go` -/

/-- Table `ke` of `math_exp.go`: the 256 rejection thresholds. -/
def keTable : List Nat := [
  0xe290a139, 0x0, 0x9beadebc, 0xc377ac71, 0xd4ddb990,
  0xde893fb8, 0xe4a8e87c, 0xe8dff16a, 0xebf2deab, 0xee49a6e8,
  0xf0204efd, 0xf19bdb8e, 0xf2d458bb, 0xf3da104b, 0xf4b86d78,
  0xf577ad8a, 0xf61de83d, 0xf6afb784, 0xf730a573, 0xf7a37651,
  0xf80a5bb6, 0xf867189d, 0xf8bb1b4f, 0xf9079062, 0xf94d70ca,
  0xf98d8c7d, 0xf9c8928a, 0xf9ff175b, 0xfa319996, 0xfa6085f8,
  0xfa8c3a62, 0xfab5084e, 0xfadb36c8, 0xfaff0410, 0xfb20a6ea,
  0xfb404fb4, 0xfb5e2951, 0xfb7a59e9, 0xfb95038c, 0xfbae44ba,
  0xfbc638d8, 0xfbdcf892, 0xfbf29a30, 0xfc0731df, 0xfc1ad1ed,
  0xfc2d8b02, 0xfc3f6c4d, 0xfc5083ac, 0xfc60ddd1, 0xfc708662,
  0xfc7f8810, 0xfc8decb4, 0xfc9bbd62, 0xfca9027c, 0xfcb5c3c3,
  0xfcc20864, 0xfccdd70a, 0xfcd935e3, 0xfce42ab0, 0xfceebace,
  0xfcf8eb3b, 0xfd02c0a0, 0xfd0c3f59, 0xfd156b7b, 0xfd1e48d6,
  0xfd26daff, 0xfd2f2552, 0xfd372af7, 0xfd3eeee5, 0xfd4673e7,
  0xfd4dbc9e, 0xfd54cb85, 0xfd5ba2f2, 0xfd62451b, 0xfd68b415,
  0xfd6ef1da, 0xfd750047, 0xfd7ae120, 0xfd809612, 0xfd8620b4,
  0xfd8b8285, 0xfd90bcf5, 0xfd95d15e, 0xfd9ac10b, 0xfd9f8d36,
  0xfda43708, 0xfda8bf9e, 0xfdad2806, 0xfdb17141, 0xfdb59c46,
  0xfdb9a9fd, 0xfdbd9b46, 0xfdc170f6, 0xfdc52bd8, 0xfdc8ccac,
  0xfdcc542d, 0xfdcfc30b, 0xfdd319ef, 0xfdd6597a, 0xfdd98245,
  0xfddc94e5, 0xfddf91e6, 0xfde279ce, 0xfde54d1f, 0xfde80c52,
  0xfdeab7de, 0xfded5034, 0xfdefd5be, 0xfdf248e3, 0xfdf4aa06,
  0xfdf6f984, 0xfdf937b6, 0xfdfb64f4, 0xfdfd818d, 0xfdff8dd0,
  0xfe018a08, 0xfe03767a, 0xfe05536c, 0xfe07211c, 0xfe08dfc9,
  0xfe0a8fab, 0xfe0c30fb, 0xfe0dc3ec, 0xfe0f48b1, 0xfe10bf76,
  0xfe122869, 0xfe1383b4, 0xfe14d17c, 0xfe1611e7, 0xfe174516,
  0xfe186b2a, 0xfe19843e, 0xfe1a9070, 0xfe1b8fd6, 0xfe1c8289,
  0xfe1d689b, 0xfe1e4220, 0xfe1f0f26, 0xfe1fcfbc, 0xfe2083ed,
  0xfe212bc3, 0xfe21c745, 0xfe225678, 0xfe22d95f, 0xfe234ffb,
  0xfe23ba4a, 0xfe241849, 0xfe2469f2, 0xfe24af3c, 0xfe24e81e,
  0xfe25148b, 0xfe253474, 0xfe2547c7, 0xfe254e70, 0xfe25485a,
  0xfe25356a, 0xfe251586, 0xfe24e88f, 0xfe24ae64, 0xfe2466e1,
  0xfe2411df, 0xfe23af34, 0xfe233eb4, 0xfe22c02c, 0xfe22336b,
  0xfe219838, 0xfe20ee58, 0xfe20358c, 0xfe1f6d92, 0xfe1e9621,
  0xfe1daef0, 0xfe1cb7ac, 0xfe1bb002, 0xfe1a9798, 0xfe196e0d,
  0xfe1832fd, 0xfe16e5fe, 0xfe15869d, 0xfe141464, 0xfe128ed3,
  0xfe10f565, 0xfe0f478c, 0xfe0d84b1, 0xfe0bac36, 0xfe09bd73,
  0xfe07b7b5, 0xfe059a40, 0xfe03644c, 0xfe011504, 0xfdfeab88,
  0xfdfc26e9, 0xfdf98629, 0xfdf6c83b, 0xfdf3ec01, 0xfdf0f04a,
  0xfdedd3d1, 0xfdea953d, 0xfde7331e, 0xfde3abe9, 0xfddffdfb,
  0xfddc2791, 0xfdd826cd, 0xfdd3f9a8, 0xfdcf9dfc, 0xfdcb1176,
  0xfdc65198, 0xfdc15bb3, 0xfdbc2ce2, 0xfdb6c206, 0xfdb117be,
  0xfdab2a63, 0xfda4f5fd, 0xfd9e7640, 0xfd97a67a, 0xfd908192,
  0xfd8901f2, 0xfd812182, 0xfd78d98e, 0xfd7022bb, 0xfd66f4ed,
  0xfd5d4732, 0xfd530f9c, 0xfd48432b, 0xfd3cd59a, 0xfd30b936,
  0xfd23dea4, 0xfd16349e, 0xfd07a7a3, 0xfcf8219b, 0xfce7895b,
  0xfcd5c220, 0xfcc2aadb, 0xfcae1d5e, 0xfc97ed4e, 0xfc7fe6d4,
  0xfc65ccf3, 0xfc495762, 0xfc2a2fc8, 0xfc07ee19, 0xfbe213c1,
  0xfbb8051a, 0xfb890078, 0xfb5411a5, 0xfb180005, 0xfad33482,
  0xfa839276, 0xfa263b32, 0xf9b72d1c, 0xf930a1a2, 0xf889f023,
  0xf7b577d2, 0xf69c650c, 0xf51530f0, 0xf2cb0e3c, 0xeeefb15d,
  0xe6da6ecf]

/-- Table `we` of `math_exp.go`: the 256 layer widths, as exact rationals. -/
def weTable : List ℚ := [
  2.0249554585039273e-09, 1.486674039973914e-11, 2.4409617196260667e-11,
  3.196880708914543e-11, 3.844677064665297e-11, 4.422820397243645e-11,
  4.9516444707048736e-11, 5.443358865093317e-11, 5.905944001532905e-11,
  6.34494203791173e-11, 6.764381087646596e-11, 7.167294497483693e-11,
  7.5560323199469e-11, 7.932458097693723e-11, 8.298078557904666e-11,
  8.654132143825228e-11, 9.001651265218844e-11, 9.341507193080098e-11,
  9.674443155535412e-11, 1.0001099208030168e-10, 1.0322031240760172e-10,
  1.0637725725104571e-10, 1.0948611308871047e-10, 1.125506804449162e-10,
  1.1557434814019853e-10, 1.1856015362861901e-10, 1.2151083247552976e-10,
  1.2442885926858652e-10, 1.2731648170466315e-10, 1.3017574919190738e-10,
  1.3300853700670142e-10, 1.3581656682043557e-10, 1.3860142424039144e-10,
  1.41364573878306e-10, 1.44107372359111e-10, 1.4683107960351982e-10,
  1.4953686865617902e-10, 1.522258342820371e-10, 1.5489900051445652e-10,
  1.575573273071839e-10, 1.6020171641692235e-10, 1.6283301662263273e-10,
  1.654520283708477e-10, 1.680595079224455e-10, 1.7065617106490894e-10,
  1.7324269644462226e-10, 1.7581972856586386e-10, 1.783878804965491e-10,
  1.8094773631522658e-10, 1.8349985332914917e-10, 1.8604476408927868e-10,
  1.8858297822471202e-10, 1.9111498411614723e-10, 1.9364125042554764e-10,
  1.9616222749705624e-10, 1.986783486423952e-10, 2.011900313224188e-10,
  2.0369767823513247e-10, 2.0620167831931063e-10, 2.087024076818232e-10,
  2.112002304558852e-10, 2.1369549959666193e-10, 2.1618855761997644e-10,
  2.186797372892644e-10, 2.211693622553898e-10, 2.2365774765346816e-10,
  2.261452006604297e-10, 2.2863202101668864e-10, 2.3111850151495907e-10,
  2.3360492845897016e-10, 2.360915820945744e-10, 2.3857873701551393e-10,
  2.4106666254590454e-10, 2.4355562310131354e-10, 2.460458785301426e-10,
  2.485376844368799e-10, 2.510312924886523e-10, 2.535269507063894e-10,
  2.5602490374180415e-10, 2.585253931412964e-10, 2.6102865759779937e-10,
  2.635349331915095e-10, 2.6604445362036876e-10, 2.68557450421102e-10,
  2.710741531815563e-10, 2.7359478974503266e-10, 2.7611958640725403e-10,
  2.786487681065693e-10, 2.8118255860795293e-10, 2.837211806813232e-10,
  2.8626485627467025e-10, 2.8881380668245404e-10, 2.913682527097064e-10,
  2.9392841483224535e-10, 2.9649451335338897e-10, 2.9906676855753465e-10,
  3.016454008609524e-10, 3.042306309601231e-10, 3.068226799779396e-10,
  3.0942176960807203e-10, 3.120281222577915e-10, 3.146419611895305e-10,
  3.172635106614526e-10, 3.1989299606729535e-10, 3.225306440757405e-10,
  3.2517668276956344e-10, 3.278313417848049e-10, 3.304948524502066e-10,
  3.33167447927147e-10, 3.358493633503123e-10, 3.3854083596933475e-10,
  3.412421052916313e-10, 3.4395341322667273e-10, 3.46675004231917e-10,
  3.494071254606396e-10, 3.5215002691189675e-10, 3.549039615828604e-10,
  3.5766918562376677e-10, 3.604459584957252e-10, 3.6323454313163823e-10,
  3.660352061004911e-10, 3.688482177752741e-10, 3.716738525048091e-10,
  3.7451238878976035e-10, 3.7736410946311836e-10, 3.8022930187545505e-10,
  3.831082580852609e-10, 3.860012750546849e-10, 3.8890865485101284e-10,
  3.918307048542317e-10, 3.947677379710454e-10, 3.977200728557206e-10,
  4.0068803413816137e-10, 4.0367195265962996e-10, 4.066721657165498e-10,
  4.096890173128513e-10, 4.127228584213427e-10, 4.157740472546139e-10,
  4.1884294954600986e-10, 4.2192993884123634e-10, 4.2503539680119584e-10,
  4.281597135166822e-10, 4.3130328783559965e-10, 4.3446652770341084e-10,
  4.3764985051756043e-10, 4.408536834966642e-10, 4.4407846406530283e-10,
  4.4732464025531137e-10, 4.505926711245093e-10, 4.538830271938779e-10,
  4.5719619090425494e-10, 4.6053265709368507e-10, 4.63892933496641e-10,
  4.672775412664091e-10, 4.706870155220212e-10, 4.74121905921206e-10,
  4.775827772609386e-10, 4.810702101072703e-10, 4.845848014562447e-10,
  4.881271654278306e-10, 4.916979339949417e-10, 4.952977577497641e-10,
  4.989273067097741e-10, 5.025872711660073e-10, 5.062783625763314e-10,
  5.100013145066842e-10, 5.137568836234657e-10, 5.175458507405212e-10,
  5.21369021924424e-10, 5.252272296620576e-10, 5.291213340948229e-10,
  5.330522243241474e-10, 5.370208197933575e-10, 5.410280717513981e-10,
  5.4507496480435e-10, 5.491625185611978e-10, 5.532917893808662e-10,
  5.574638722281573e-10, 5.616799026468934e-10, 5.659410588593269e-10,
  5.702485640016967e-10, 5.746036885067274e-10, 5.790077526448783e-10,
  5.834621292372686e-10, 5.879682465544501e-10, 5.92527591416582e-10,
  5.971417125121004e-10, 6.018122239536933e-10, 6.065408090923064e-10,
  6.11329224612049e-10, 6.161793049312685e-10, 6.21092966937755e-10,
  6.260722150890632e-10, 6.311191469123422e-10, 6.362359589419096e-10,
  6.414249531371391e-10, 6.466885438281477e-10, 6.52029265242335e-10,
  6.574497796711595e-10, 6.629528863437449e-10, 6.685415310821349e-10,
  6.742188168224279e-10, 6.799880150968072e-10, 6.858525785838827e-10,
  6.91816154849038e-10, 6.97882601412975e-10, 7.040560023057454e-10,
  7.103406862857415e-10, 7.167412469289477e-10, 7.23262564823922e-10,
  7.299098321433274e-10, 7.36688579904375e-10, 7.436047082795391e-10,
  7.506645203768892e-10, 7.578747599782539e-10, 7.652426538055458e-10,
  7.727759589838675e-10, 7.804830164881679e-10, 7.883728115028472e-10,
  7.964550417966955e-10, 8.047401954263357e-10, 8.132396393395169e-10,
  8.219657207674682e-10, 8.309318836890947e-10, 8.401528031399729e-10,
  8.496445407534143e-10, 8.594247256958435e-10, 8.695127661432599e-10,
  8.799300977056073e-10, 8.907004768313693e-10, 9.0185032933939e-10,
  9.134091670009051e-10, 9.254100887742333e-10, 9.378903882223966e-10,
  9.508922953177937e-10, 9.644638899862886e-10, 9.786602374481e-10,
  9.935448133101142e-10, 1.0091913119697182e-09, 1.0256859691519228e-09,
  1.0431305846498399e-09, 1.0616465149697269e-09, 1.081380035127533e-09,
  1.1025096747562618e-09, 1.1252564706432428e-09, 1.1498986477733707e-09,
  1.1767932423346918e-09, 1.2064090187897673e-09, 1.2393785886825987e-09,
  1.276584953890662e-09, 1.3193139264951536e-09, 1.3695434471115933e-09,
  1.4305498138471676e-09, 1.5083650345524237e-09, 1.6160853275510512e-09,
  1.792124814850057e-09]

/-- Table `fe` of `math_exp.go`: the 256 density values, as exact rationals. -/
def feTable : List ℚ := [
  1, 0.9381436808621765, 0.9004699299257477, 0.8717043323812047,
  0.8477855006239905, 0.8269932966430511, 0.808421651523009,
  0.7915276369724963, 0.7759568520401162, 0.7614633888498968,
  0.7478686219851957, 0.735038092431424, 0.7228676595935725,
  0.7112747608050765, 0.7001926550827886, 0.6895664961170784,
  0.6793505722647658, 0.6695063167319252, 0.6600008410790001,
  0.6508058334145714, 0.6418967164272664, 0.6332519942143664,
  0.6248527387036662, 0.6166821809152079, 0.6087253820796223,
  0.6009689663652326, 0.5934009016917338, 0.5860103184772684,
  0.5787873586028454, 0.5717230486648262, 0.5648091929124006,
  0.5580382822625879, 0.5514034165406417, 0.5448982376724401,
  0.5385168720028622, 0.5322538802630437, 0.5261042139836201,
  0.5200631773682339, 0.5141263938147489, 0.5082897764106432,
  0.5025495018413481, 0.4969019872415499, 0.49134386959403287,
  0.48587198734188525, 0.48048336393045454, 0.4751751930373777,
  0.4699448252839603, 0.4647897562504265, 0.459707615642138,
  0.45469615747461584, 0.44975325116275533, 0.44487687341454885,
  0.4400651008423542, 0.4353161032156369, 0.43062813728845917,
  0.4259995411430347, 0.4214287289976169, 0.41691418643300326,
  0.4124544659971615, 0.40804818315203273, 0.4036940125305306,
  0.3993906844752314, 0.39513698183329043, 0.3909317369847974,
  0.38677382908413793, 0.38266218149601006, 0.37859575940958107,
  0.37457356761590244, 0.3705946484351463, 0.36665807978151443,
  0.3627629733548181, 0.35890847294875006, 0.35509375286678774,
  0.3513180164374836, 0.34758049462163726, 0.3438804447045027,
  0.34021714906678024, 0.3365899140286778, 0.3329980687618092,
  0.32944096426413655, 0.32591797239355635, 0.3224284849560893,
  0.31897191284495735, 0.315547685227129, 0.3121552487741797,
  0.30879406693456024, 0.3054636192445903, 0.3021634006756935,
  0.2988929210155818, 0.29565170428126125, 0.29243928816189263,
  0.28925522348967775, 0.2860990737370769, 0.2829704145387808,
  0.2798688332369729, 0.2767939284485174, 0.27374530965280297,
  0.27072259679906, 0.26772541993204485, 0.26475341883506226,
  0.26180624268936303, 0.2588835497490163, 0.25598500703041543,
  0.2531102900156295, 0.25025908236886235, 0.24743107566532765,
  0.24462596913189213, 0.24184346939887724, 0.23908329026244915,
  0.23634515245705962, 0.23362878343743335, 0.23093391716962744,
  0.22826029393071676, 0.22560766011668415, 0.22297576805812028,
  0.22036437584335958, 0.21777324714870058, 0.2152021510753787,
  0.21265086199297834, 0.2101191593889883, 0.20760682772422212,
  0.20511365629383782, 0.2026394390937091, 0.20018397469191135,
  0.19774706610509893, 0.19532852067956327, 0.19292814997677138,
  0.19054576966319545, 0.18818119940425432, 0.18583426276219714,
  0.1835047870977675, 0.18119260347549634, 0.17889754657247836,
  0.17661945459049494, 0.17435816917135352, 0.1721135353153201,
  0.16988540130252766, 0.1676736186172502, 0.165478041874936,
  0.16329852875190182, 0.16113493991759203, 0.1589871389693142,
  0.15685499236936523, 0.15473836938446808, 0.15263714202744288,
  0.15055118500103992, 0.14848037564386682, 0.14642459387834497,
  0.1443837221606348, 0.14235764543247223, 0.1403462510748625,
  0.1383494288635803, 0.13636707092642894, 0.1343990717022137,
  0.13244532790138763, 0.13050573846833088, 0.1285802045452283,
  0.12666862943751078, 0.12477091858083104, 0.12288697950954522,
  0.1210167218266749, 0.11916005717532775, 0.11731689921155564,
  0.1154871635786336, 0.11367076788274438, 0.11186763167005638,
  0.11007767640518545, 0.10830082545103385, 0.10653700405000172,
  0.10478613930657024, 0.1030481601712578, 0.10132299742595369,
  0.09961058367063715, 0.09791085331149221, 0.09622374255043283,
  0.09454918937605587, 0.09288713355604357, 0.09123751663104017,
  0.08960028191003284, 0.08797537446727019, 0.08636274114075689,
  0.0847623305323681, 0.08317409300963235, 0.08159798070923742,
  0.0800339475423199, 0.07848194920160644, 0.07694194317048052,
  0.0754138887340584, 0.07389774699236475, 0.07239348087570872,
  0.07090105516237181, 0.06942043649872875, 0.06795159342193662,
  0.06649449638533979, 0.06504911778675376, 0.06361543199980735,
  0.06219341540854101, 0.06078304644547963, 0.05938430563342025,
  0.05799717563120064, 0.05662164128374284, 0.05525768967669701,
  0.05390531019604605, 0.052564494593071664, 0.051235237055126254,
  0.04991753428270636, 0.04861138557337948, 0.04731679291318155,
  0.04603376107617516, 0.04476229773294327, 0.043502413568888176,
  0.04225412241331624, 0.04101744138041482, 0.03979239102337412,
  0.03857899550307485, 0.03737728277295936, 0.03618728478193143,
  0.03500903769739742, 0.033842582150874344, 0.03268796350895954,
  0.03154523217289361, 0.030414443910466608, 0.029295660224637397,
  0.028188948763978632, 0.0270943837809558, 0.02601204664513422,
  0.024942026419731787, 0.023884420511558174, 0.02283933540638524,
  0.021806887504283584, 0.020787204072578117, 0.01978042433800974,
  0.018786700744696024, 0.017806200410911355, 0.01683910682603994,
  0.015885621839973156, 0.014945968011691148, 0.014020391403181943,
  0.013109164931254991, 0.012212592426255378, 0.0113310135978346,
  0.010464810181029982, 0.009614413642502213, 0.008780314985808977,
  0.007963077438017043, 0.007163353183634991, 0.006381905937319183,
  0.005619642207205489, 0.0048776559835424, 0.0041572951208338005,
  0.003460264777836907, 0.0027887987935740783, 0.002145967743718907,
  0.0015362997803015728, 0.0009672692823271743, 0.0004541343538414966]

/-! ## The generator interface consumed by `ExpFloat64` -/

/-- The two methods of `*Rand` that `ExpFloat64` calls, as state-passing
functions on a generator state `σ`: `Uint64` yields a raw 64-bit word and
`Float64` a uniform variate. -/
structure Gen (σ : Type) where
  /-- Method `r.Uint64()`. -/
  Uint64 : σ → Nat × σ
  /-- Method `r.Float64()`. -/
  Float64 : σ → ℚ × σ

/-- A generator that replays a prescribed sequence of outputs: the state is the
pair of the words still to be returned by `Uint64` and the uniforms still to be
returned by `Float64` (an exhausted sequence yields `0`). -/
def tapeGen : Gen (List Nat × List ℚ) where
  Uint64 := fun s => (uint64 (s.1.headD 0), (s.1.tail, s.2))
  Float64 := fun s => (s.2.headD 0, (s.1, s.2.tail))

/-! ## `ExpFloat64` -/

/-- Constant `re` of `math_exp.go`. -/
def re : ℚ := 7.69711747013104972

/-- Ways in which a run of the embedded code fails to produce a value. -/
inductive Fault where
  /-- Go run-time panic: index out of range. -/
  | indexOutOfRange
  /-- The embedding ran out of fuel before the loop returned. -/
  | outOfFuel
  /-- Error kind `InvalidArgument` of the specification (§7). -/
  | invalidArgument
  /-- Error kind `InvalidFormat` of the specification (§7). -/
  | invalidFormat
  deriving DecidableEq, Repr

/-- Go array indexing `t[i]` with its bounds check. -/
def index {α : Type} (t : List α) (i : Nat) : Except Fault α :=
  match t[i]? with
  | some a => .ok a
  | none => .error .indexOutOfRange

/-- Indexing `ke[i]`. -/
def ke (i : Nat) : Except Fault Nat := index keTable i

/-- Indexing `we[i]`. -/
def we (i : Nat) : Except Fault ℚ := index weTable i

/-- Indexing `fe[i]`. -/
def fe (i : Nat) : Except Fault ℚ := index feTable i

/-- Mantissa field of `ExpFloat64`: `j := uint64(uint32(v >> 8))`. -/
def expJ (v : Nat) : Nat := uint64 (uint32 (v >>> 8))

/-- Layer index of `ExpFloat64`: `i := v & 0xFF`. -/
def expI (v : Nat) : Nat := v &&& 0xFF

/-- How one iteration of the loop of `ExpFloat64` ends; every constructor
carries the generator state left behind. -/
inductive ExpOutcome (σ : Type) where
  /-- Returned `x` at `if j < ke[i]`. -/
  | fastAccept (x : ℚ) (s : σ)
  /-- Returned `re - math.Log(r.Float64())` at `if i == 0`. -/
  | tail (x : ℚ) (s : σ)
  /-- Returned `x` at the last test of the body. -/
  | slowAccept (x : ℚ) (s : σ)
  /-- Fell off the end of the body: the loop starts over. -/
  | reject (s : σ)

/-- One pass through the body of the `for` loop of `ExpFloat64`.  `Log` and
`Exp` stand for `math.Log` and `math.Exp`. -/
def expIter {σ : Type} (g : Gen σ) (Log Exp : ℚ → ℚ) (s : σ) :
    Except Fault (ExpOutcome σ) := do
  let (v, s1) := g.Uint64 s
  let j := expJ v
  let i := expI v
  let x := (j : ℚ) * (← we i)
  if j < (← ke i) then
    return .fastAccept x s1
  if i = 0 then
    let (u, s2) := g.Float64 s1
    return .tail (re - Log u) s2
  let fi ← fe i
  let (u, s2) := g.Float64 s1
  let fp ← fe (uint64 (i + 2 ^ 64 - 1))
  if fi + u * (fp - fi) < Exp (-x) then
    return .slowAccept x s2
  return .reject s2

/-- Method `ExpFloat64`: the loop runs until an iteration returns; `fuel`
bounds the number of iterations the embedding may run. -/
def ExpFloat64 {σ : Type} (g : Gen σ) (Log Exp : ℚ → ℚ) :
    Nat → σ → Except Fault (ℚ × σ)
  | 0, _ => .error .outOfFuel
  | fuel + 1, s =>
    match expIter g Log Exp s with
    | .error e => .error e
    | .ok (.fastAccept x s1) => .ok (x, s1)
    | .ok (.tail x s1) => .ok (x, s1)
    | .ok (.slowAccept x s1) => .ok (x, s1)
    | .ok (.reject s1) => ExpFloat64 g Log Exp fuel s1

/-! ## `ExpFloat64` over an arbitrary `float64` arithmetic

The embedding `expIter` above computes in exact rationals.  The embedding of
this section leaves the `float64` arithmetic as a parameter, so that what is
proved of it holds of the rounded arithmetic of the Go code as well. -/

/-- The `float64` operations that occur in `ExpFloat64`, on a carrier `F` of
`float64` values. -/
structure Float64Ops (F : Type) where
  /-- The `float64` value of a decimal constant written in the source. -/
  lit : ℚ → F
  /-- Conversion `float64(j)` of an unsigned integer. -/
  ofUint64 : Nat → F
  /-- Product `a * b`. -/
  mul : F → F → F
  /-- Difference `a - b`. -/
  sub : F → F → F
  /-- Negation `-a`. -/
  neg : F → F
  /-- The value of `a + b * c`; Go allows the product and the sum to be rounded
  separately or fused into one operation. -/
  addMul : F → F → F → F
  /-- Comparison `a < b`. -/
  lt : F → F → Bool
  /-- Function `math.Log`. -/
  Log : F → F
  /-- Function `math.Exp`. -/
  Exp : F → F

/-- The two methods of `*Rand` that `ExpFloat64` calls, with `Float64`
returning a `float64` of the carrier `F`. -/
structure GenF (F σ : Type) where
  /-- Method `r.Uint64()`. -/
  Uint64 : σ → Nat × σ
  /-- Method `r.Float64()`. -/
  Float64 : σ → F × σ

/-- How one iteration of the loop of `ExpFloat64` ends, with `float64` values
in the carrier `F`; every constructor carries the generator state left
behind. -/
inductive ExpOutcomeF (F σ : Type) where
  /-- Returned `x` at `if j < ke[i]`. -/
  | fastAccept (x : F) (s : σ)
  /-- Returned `re - math.Log(r.Float64())` at `if i == 0`. -/
  | tail (x : F) (s : σ)
  /-- Returned `x` at the last test of the body. -/
  | slowAccept (x : F) (s : σ)
  /-- Fell off the end of the body: the loop starts over. -/
  | reject (s : σ)

/-- One pass through the body of the `for` loop of `ExpFloat64`, every
`float64` operation taken from `ops`. -/
def expIterF {F σ : Type} (ops : Float64Ops F) (g : GenF F σ) (s : σ) :
    Except Fault (ExpOutcomeF F σ) := do
  let (v, s1) := g.Uint64 s
  let j := expJ v
  let i := expI v
  let x := ops.mul (ops.ofUint64 j) (ops.lit (← we i))
  if j < (← ke i) then
    return .fastAccept x s1
  if i = 0 then
    let (u, s2) := g.Float64 s1
    return .tail (ops.sub (ops.lit re) (ops.Log u)) s2
  let fi ← fe i
  let (u, s2) := g.Float64 s1
  let fp ← fe (uint64 (i + 2 ^ 64 - 1))
  if ops.lt (ops.addMul (ops.lit fi) u (ops.sub (ops.lit fp) (ops.lit fi)))
      (ops.Exp (ops.neg x)) = true then
    return .slowAccept x s2
  return .reject s2

/-- Method `ExpFloat64` with every `float64` operation taken from `ops`: the
loop runs until an iteration returns; `fuel` bounds the number of iterations
the embedding may run. -/
def ExpFloat64F {F σ : Type} (ops : Float64Ops F) (g : GenF F σ) :
    Nat → σ → Except Fault (F × σ)
  | 0, _ => .error .outOfFuel
  | fuel + 1, s =>
    match expIterF ops g s with
    | .error e => .error e
    | .ok (.fastAccept x s1) => .ok (x, s1)
    | .ok (.tail x s1) => .ok (x, s1)
    | .ok (.slowAccept x s1) => .ok (x, s1)
    | .ok (.reject s1) => ExpFloat64F ops g fuel s1

/-- Exact rational arithmetic as an instance of the `float64` operations: no
operation rounds. -/
def exactOps (Log Exp : ℚ → ℚ) : Float64Ops ℚ where
  lit := fun q => q
  ofUint64 := fun j => (j : ℚ)
  mul := fun a b => a * b
  sub := fun a b => a - b
  neg := fun a => -a
  addMul := fun a b c => a + b * c
  lt := fun a b => decide (a < b)
  Log := Log
  Exp := Exp

/-- Rounding to the nearest multiple of `2^-53`, ties upwards. -/
def round53 (q : ℚ) : ℚ := ((q * 2 ^ 53 + 1 / 2).floor : ℚ) / 2 ^ 53

/-- A rounding arithmetic on which the embedding can be run: every operation
is the exact one followed by `round53`, the spacing of `float64` just below
`1`.  `Log` and `Exp` are parameters. -/
def roundedOps (Log Exp : ℚ → ℚ) : Float64Ops ℚ where
  lit := fun q => round53 q
  ofUint64 := fun j => (j : ℚ)
  mul := fun a b => round53 (a * b)
  sub := fun a b => round53 (a - b)
  neg := fun a => -a
  addMul := fun a b c => round53 (a + round53 (b * c))
  lt := fun a b => decide (a < b)
  Log := Log
  Exp := Exp

/-- A generator of the exact embedding as a generator for an arithmetic on
carrier `ℚ`. -/
def genF {σ : Type} (g : Gen σ) : GenF ℚ σ where
  Uint64 := g.Uint64
  Float64 := g.Float64

/-- An outcome on carrier `ℚ` as an outcome of the exact embedding. -/
def outcomeOfF {σ : Type} : ExpOutcomeF ℚ σ → ExpOutcome σ
  | .fastAccept x s => .fastAccept x s
  | .tail x s => .tail x s
  | .slowAccept x s => .slowAccept x s
  | .reject s => .reject s

/-! ## Bit engine, state codec and byte reader (modelled from the specification)

The source file that defines `Rand`, `New`, `Uint64`, `Read`, `MarshalBinary`,
`UnmarshalBinary` and the bounded samplers is not among the sources; only its
tests are.  The definitions of this section follow the specification. -/

/-- Modelled from the spec: the generator state of §3, "one or more 64-bit
words of internal state" (the file defining the engine is missing).  `N` is the
number of state words. -/
abbrev EngineState (N : Nat) : Type :=
  { ws : List Nat // ws.length = N ∧ ∀ w ∈ ws, w < 2 ^ 64 }

/-- Modelled from the spec: the BitEngine of §4.1 (the file defining it is
missing).  `seed` initialises the state deterministically from a 64-bit seed
and `next` advances the state and yields one raw word.  The specification
leaves the bit-generation algorithm open, so both are parameters. -/
structure BitEngine (N : Nat) where
  /-- Operation `seed(words)`. -/
  seed : Nat → EngineState N
  /-- Operation `next_u64()`, before truncation to 64 bits. -/
  next : EngineState N → Nat × EngineState N

/-- Modelled from the spec: the missing type `Rand`, a generator instance: the
engine state together with the bytes of the last drawn word that `Read` has not
handed out yet (§6: byte spans are word draws split across chunk
boundaries). -/
structure Rand (N : Nat) where
  /-- The words of engine state. -/
  state : EngineState N
  /-- Bytes of the last word drawn by `Read` still to be handed out. -/
  pending : List Nat

/-- Modelled from the spec: the missing constructor `New(s)`, a generator
seeded with the 64-bit value `s`. -/
def New {N : Nat} (E : BitEngine N) (s : Nat) : Rand N :=
  { state := E.seed (uint64 s), pending := [] }

/-- Modelled from the spec: the missing zero value `var r Rand`, all state
words zero. -/
def zeroRand (N : Nat) : Rand N :=
  { state := ⟨List.replicate N 0, by simp⟩, pending := [] }

/-- Modelled from the spec: the missing method `Uint64` (`next_u64` of §4.1):
advance the state and return one 64-bit word. -/
def next_u64 {N : Nat} (E : BitEngine N) (r : Rand N) : Nat × Rand N :=
  (uint64 (E.next r.state).1, { r with state := (E.next r.state).2 })

/-- The next `k` words returned by successive calls of the method `draw`. -/
def drawWords {ρ : Type} (draw : ρ → Nat × ρ) : Nat → ρ → List Nat
  | 0, _ => []
  | k + 1, r => (draw r).1 :: drawWords draw k (draw r).2

/-- Modelled from the spec: the little-endian layout of §6 (the codec file is
missing): the eight bytes of a 64-bit word, least significant first. -/
def le64 (w : Nat) : List Nat :=
  (List.range 8).map (fun i => (w >>> (8 * i)) % 256)

/-- Modelled from the spec: the little-endian layout of §6 (the codec file is
missing): the number whose bytes are listed, least significant first. -/
def fromLE : List Nat → Nat
  | [] => 0
  | b :: bs => b % 256 + 256 * fromLE bs

/-- Modelled from the spec: "raw state words" of §6 (the codec file is
missing): the state words one after the other, each as eight little-endian
bytes. -/
def encodeWords : List Nat → List Nat
  | [] => []
  | w :: ws => le64 w ++ encodeWords ws

/-- Modelled from the spec: the decoding half of `unmarshal` (§4.4; the codec
file is missing): read `N` state words back from their little-endian bytes. -/
def decodeWords : (N : Nat) → List Nat → EngineState N
  | 0, _ => ⟨[], rfl, by simp⟩
  | N + 1, data =>
    ⟨uint64 (fromLE (data.take 8)) :: (decodeWords N (data.drop 8)).1,
      by simp [(decodeWords N (data.drop 8)).2.1],
      by
        intro w hw
        rcases List.mem_cons.1 hw with h | h
        · rw [h]
          exact Nat.mod_lt _ (by norm_num)
        · exact (decodeWords N (data.drop 8)).2.2 w h⟩

/-- Modelled from the spec: the missing method `MarshalBinary` (`marshal` of
§4.4, layout of §6): the format/version tag followed by the raw state words,
little-endian; nothing but the engine state is encoded.  The specification
gives `marshal` no failure mode, so the bytes are returned as such. -/
def MarshalBinary {N : Nat} (tag : List Nat) (r : Rand N) : List Nat :=
  tag ++ encodeWords r.state.1

/-- Modelled from the spec: the missing method `UnmarshalBinary` (`unmarshal`
of §4.4): fails with `InvalidFormat` when the buffer length or the version tag
does not match, before touching the target `r`; otherwise the engine state of
the target is replaced by the decoded words. -/
def UnmarshalBinary {N : Nat} (tag : List Nat) (r : Rand N) (data : List Nat) :
    Except Fault (Rand N) :=
  if data.length ≠ tag.length + 8 * N then .error .invalidFormat
  else if data.take tag.length ≠ tag then .error .invalidFormat
  else .ok { r with state := decodeWords N (data.drop tag.length) }

/-- Modelled from the spec: one byte of the missing method `Read` (§6): the
next pending byte, or, when none is pending, the low byte of a freshly drawn
word, whose other seven bytes become pending. -/
def readByte {N : Nat} (E : BitEngine N) (r : Rand N) : Nat × Rand N :=
  match r.pending with
  | b :: rest => (b, { r with pending := rest })
  | [] =>
    let p := next_u64 E r
    ((le64 p.1).headD 0, { p.2 with pending := (le64 p.1).tail })

/-- Modelled from the spec: the missing method `Read` (`read(buffer)` of §6)
on a buffer of length `n`: the bytes written and the generator afterwards.
Bytes are those of successive word draws, a word being split across calls when a
call ends inside it. -/
def Read {N : Nat} (E : BitEngine N) : Nat → Rand N → List Nat × Rand N
  | 0, r => ([], r)
  | n + 1, r =>
    let p := readByte E r
    let q := Read E n p.2
    (p.1 :: q.1, q.2)

/-- The loop of `TestRand_Read`: one `Read` call per chunk length, the chunks
filling consecutive parts of the buffer. -/
def readChunks {N : Nat} (E : BitEngine N) : List Nat → Rand N → List Nat × Rand N
  | [], r => ([], r)
  | c :: cs, r =>
    let p := Read E c r
    let q := readChunks E cs p.2
    (p.1 ++ q.1, q.2)

/-! ## Bounded samplers (modelled from the specification) -/

/-- Modelled from the spec: the redraw loop of step 4 of §4.2 (the file defining
the bounded samplers is missing): while the low half `lo` is below the
threshold `t`, draw a new word and recompute the halves of its product with
`n`; then return the high half `hi`.  `fuel` bounds the number of redraws. -/
def lemireRetry {ρ : Type} (w : Nat) (draw : ρ → Nat × ρ) (n t : Nat) :
    Nat → Nat → Nat → ρ → Except Fault (Nat × ρ)
  | 0, hi, lo, r => if lo < t then .error .outOfFuel else .ok (hi, r)
  | fuel + 1, hi, lo, r =>
    if lo < t then
      let p := draw r
      lemireRetry w draw n t fuel (p.1 * n / 2 ^ w) (p.1 * n % 2 ^ w) p.2
    else .ok (hi, r)

/-- Modelled from the spec: the unbiased bounded draw of §4.2 on `w`-bit words
(the file defining it is missing).  A bound of `0` is `InvalidArgument` (§7);
`n = 1` returns `0` without drawing; otherwise a word `v` is drawn, the
full-width product `v * n` is split into its high and low halves, and when the
low half is below `n` the threshold `(2^w - n) mod n` is computed and words are
redrawn until the low half clears it; the high half is returned. -/
def boundedDraw {ρ : Type} (w : Nat) (draw : ρ → Nat × ρ) (fuel n : Nat) (r : ρ) :
    Except Fault (Nat × ρ) :=
  if n = 0 then .error .invalidArgument
  else if n = 1 then .ok (0, r)
  else
    let p := draw r
    let hi := p.1 * n / 2 ^ w
    let lo := p.1 * n % 2 ^ w
    if lo < n then lemireRetry w draw n ((2 ^ w - n) % n) fuel hi lo p.2
    else .ok (hi, p.2)

/-- Modelled from the spec: the missing method `Uint32` (`next_u32` of §4.1),
derived from `next_u64` by truncation, the first of the two derivations the
specification allows. -/
def next_u32 {N : Nat} (E : BitEngine N) (r : Rand N) : Nat × Rand N :=
  (uint32 (next_u64 E r).1, (next_u64 E r).2)

/-- Modelled from the spec: the missing method `Uint64n`, the bounded draw on
64-bit words. -/
def Uint64n {N : Nat} (E : BitEngine N) (fuel n : Nat) (r : Rand N) :
    Except Fault (Nat × Rand N) :=
  boundedDraw 64 (next_u64 E) fuel n r

/-- Modelled from the spec: the missing method `Uint32n`, the bounded draw on
32-bit words. -/
def Uint32n {N : Nat} (E : BitEngine N) (fuel n : Nat) (r : Rand N) :
    Except Fault (Nat × Rand N) :=
  boundedDraw 32 (next_u32 E) fuel n r

/-- Go conversion `int64(x)` of an unsigned 64-bit value (two's complement). -/
def int64 (x : Nat) : Int :=
  if uint64 x < 2 ^ 63 then (uint64 x : Int) else (uint64 x : Int) - 2 ^ 64

/-- Go conversion `int32(x)` of an unsigned 32-bit value (two's complement). -/
def int32 (x : Nat) : Int :=
  if uint32 x < 2 ^ 31 then (uint32 x : Int) else (uint32 x : Int) - 2 ^ 32

/-- Modelled from the spec: the signed wrappers of §4.2 (the file defining
them is missing): validate `n > 0` (`InvalidArgument` otherwise), draw with the
unsigned sampler `draw` on the bound converted to unsigned, and convert the
result to the signed type with `conv`. -/
def signedDraw {ρ : Type} (draw : Nat → ρ → Except Fault (Nat × ρ)) (conv : Nat → Int)
    (n : Int) (r : ρ) : Except Fault (Int × ρ) :=
  if n ≤ 0 then .error .invalidArgument
  else
    match draw n.toNat r with
    | .ok p => .ok (conv p.1, p.2)
    | .error e => .error e

/-- Modelled from the spec: the missing method `Int63n`, the signed wrapper of
`Uint64n`. -/
def Int63n {N : Nat} (E : BitEngine N) (fuel : Nat) (n : Int) (r : Rand N) :
    Except Fault (Int × Rand N) :=
  signedDraw (Uint64n E fuel) int64 n r

/-- Modelled from the spec: the missing method `Int31n`, the signed wrapper of
`Uint32n`. -/
def Int31n {N : Nat} (E : BitEngine N) (fuel : Nat) (n : Int) (r : Rand N) :
    Except Fault (Int × Rand N) :=
  signedDraw (Uint32n E fuel) int32 n r

/-- Modelled from the spec: the missing method `Intn`, the signed wrapper for
the type `int`, taken to be 64 bits wide. -/
def Intn {N : Nat} (E : BitEngine N) (fuel : Nat) (n : Int) (r : Rand N) :
    Except Fault (Int × Rand N) :=
  signedDraw (Uint64n E fuel) int64 n r

/-- Some word of the list clears the rejection threshold of the `w`-bit bounded
draw with bound `n`: the low half of its product with `n` is not below
`(2^w - n) mod n`. -/
def Clears (w n : Nat) (words : List Nat) : Prop :=
  ∃ v ∈ words, (2 ^ w - n) % n ≤ v * n % 2 ^ w

instance (w n : Nat) (words : List Nat) : Decidable (Clears w n words) := by
  unfold Clears
  infer_instance

/-- A one-word Weyl-sequence engine on which the model is run at concrete
inputs: the state advances by the odd constant `0x9e3779b97f4a7c15` modulo
`2^64` and the word returned is the new state. -/
def weylEngine : BitEngine 1 where
  seed := fun s => ⟨[s % 2 ^ 64], rfl, by
    intro w hw
    rw [List.mem_singleton.1 hw]
    exact Nat.mod_lt _ (by norm_num)⟩
  next := fun st =>
    ((st.1.headD 0 + 0x9e3779b97f4a7c15) % 2 ^ 64,
      ⟨[(st.1.headD 0 + 0x9e3779b97f4a7c15) % 2 ^ 64], rfl, by
        intro w hw
        rw [List.mem_singleton.1 hw]
        exact Nat.mod_lt _ (by norm_num)⟩)

/-- A one-word engine whose `next` always yields the word `0` and leaves the
state unchanged, whatever the seed. -/
def zeroEngine : BitEngine 1 where
  seed := fun _ => ⟨[0], rfl, by
    intro w hw
    rw [List.mem_singleton.1 hw]
    norm_num⟩
  next := fun st => (0, st)

/-! ## Intermediate values of the optimised formulation -/

/-- Value of `res` in `TestRand_Uint32nOpt` before `res += carry`:
`res, frac := bits.Mul32(n, uint32(v>>32))`. -/
def optRes (n v : Nat) : Nat := (bits.Mul32 n (uint32 (v >>> 32))).1

/-- Value of `carry` in `TestRand_Uint32nOpt`: the carry-out of
`bits.Add32(frac, hi, 0)`, with `frac` the low half of `n * uint32(v>>32)` and
`hi` the high half of `n * uint32(v)`. -/
def optCarry (n v : Nat) : Nat :=
  (bits.Add32 (bits.Mul32 n (uint32 (v >>> 32))).2 (bits.Mul32 n (uint32 v)).1 0).2

/-! ## Arithmetic of the 32-bit bounded draw -/

theorem mul_lt_two_pow_96 {n v : Nat} (hn : n < 2 ^ 32) (hv : v < 2 ^ 64) :
    n * v < 2 ^ 96 := by
  have h : n * v < 2 ^ 32 * 2 ^ 64 := Nat.mul_lt_mul'' hn hv
  simpa [← pow_add] using h

theorem res2_eq {n v : Nat} (hn : n < 2 ^ 32) (hv : v < 2 ^ 64) :
    res2 n v = n * v / 2 ^ 64 := by
  have h96 := mul_lt_two_pow_96 hn hv
  have hn64 : n % 2 ^ 64 = n := Nat.mod_eq_of_lt (by omega)
  have hv64 : v % 2 ^ 64 = v := Nat.mod_eq_of_lt hv
  simp only [res2, bits.Mul64, uint64, Nat.shiftRight_eq_div_pow, Nat.mod_mod, hn64, hv64]
  generalize n * v = p at h96 ⊢
  omega

theorem res2_lt_two_pow_32 {n v : Nat} (hn : n < 2 ^ 32) (hv : v < 2 ^ 64) :
    res2 n v < 2 ^ 32 := by
  have h96 := mul_lt_two_pow_96 hn hv
  rw [res2_eq hn hv]
  generalize n * v = p at h96 ⊢
  omega

theorem uint32nGeneral_eq {n v : Nat} (hn : n < 2 ^ 32) (hv : v < 2 ^ 64) :
    uint32nGeneral n v = n * v / 2 ^ 64 := by
  have h := res2_lt_two_pow_32 hn hv
  unfold uint32nGeneral uint32
  rw [Nat.mod_eq_of_lt h, res2_eq hn hv]

theorem uint32nOpt_eq {n v : Nat} (hn : n < 2 ^ 32) (hv : v < 2 ^ 64) :
    uint32nOpt n v = n * v / 2 ^ 64 := by
  have h96 := mul_lt_two_pow_96 hn hv
  have hn32 : n % 2 ^ 32 = n := Nat.mod_eq_of_lt hn
  have ha : v / 2 ^ 32 < 2 ^ 32 := by omega
  have hb : v % 2 ^ 32 < 2 ^ 32 := Nat.mod_lt _ (by norm_num)
  have hP : n * (v / 2 ^ 32) < 2 ^ 64 := by
    have h : n * (v / 2 ^ 32) < 2 ^ 32 * 2 ^ 32 := Nat.mul_lt_mul'' hn ha
    simpa [← pow_add] using h
  have hQ : n * (v % 2 ^ 32) < 2 ^ 64 := by
    have h : n * (v % 2 ^ 32) < 2 ^ 32 * 2 ^ 32 := Nat.mul_lt_mul'' hn hb
    simpa [← pow_add] using h
  have hsplit : n * v = n * (v / 2 ^ 32) * 2 ^ 32 + n * (v % 2 ^ 32) := by
    conv_lhs => rw [← Nat.div_add_mod v (2 ^ 32)]
    ring
  simp only [uint32nOpt, bits.Mul32, bits.Add32, uint64, uint32,
    Nat.shiftRight_eq_div_pow, Nat.mod_mod, hn32]
  have e1 : v / 2 ^ 32 % 2 ^ 32 = v / 2 ^ 32 := Nat.mod_eq_of_lt ha
  rw [hsplit] at h96
  rw [e1, hsplit]
  generalize n * (v / 2 ^ 32) = P at hP h96 ⊢
  generalize n * (v % 2 ^ 32) = Q at hQ h96 ⊢
  omega

theorem mul_div_lt_of_lt {n v : Nat} (hn0 : 0 < n) (hv : v < 2 ^ 64) :
    n * v / 2 ^ 64 < n := by
  rw [Nat.div_lt_iff_lt_mul (by norm_num)]
  exact Nat.mul_lt_mul_of_pos_left hv hn0

/-- C1: for every 32-bit `n` (zero included) and every 64-bit raw word `v`, the
optimised formulation of `TestRand_Uint32nOpt` (two 32x32 multiplications and
the carry-out of a 32-bit addition) equals the general formulation
`uint32(hi64(n * v))`. -/
theorem uint32nOpt_eq_uint32nGeneral (n v : Nat) (hn : n < 2 ^ 32) (hv : v < 2 ^ 64) :
    uint32nOpt n v = uint32nGeneral n v := by
  rw [uint32nOpt_eq hn hv, uint32nGeneral_eq hn hv]

/-- Witness for C1 at `n = 3`, `v = 0x55555555AAAAAAAB`, an input on which the
32-bit addition carries. -/
theorem uint32nOpt_eq_uint32nGeneral_witness :
    (3 : Nat) < 2 ^ 32 ∧ (6148914692668172971 : Nat) < 2 ^ 64 ∧
      uint32nOpt 3 6148914692668172971 = uint32nGeneral 3 6148914692668172971 :=
  ⟨by norm_num, by norm_num,
    uint32nOpt_eq_uint32nGeneral 3 6148914692668172971 (by norm_num) (by norm_num)⟩

/-- C2: for every 32-bit `n > 0` and every 64-bit raw word `v`, both
formulations of the multiply-high reduction of `TestRand_Uint32nOpt` yield a
value strictly below `n`; for `n = 1` both yield `0`. -/
theorem uint32n_lt (n v : Nat) (hn0 : 0 < n) (hn : n < 2 ^ 32) (hv : v < 2 ^ 64) :
    uint32nOpt n v < n ∧ uint32nGeneral n v < n ∧
      (n = 1 → uint32nOpt n v = 0 ∧ uint32nGeneral n v = 0) := by
  have h := mul_div_lt_of_lt hn0 hv
  rw [uint32nOpt_eq hn hv, uint32nGeneral_eq hn hv]
  refine ⟨h, h, fun h1 => ?_⟩
  subst h1
  omega

/-- Witness for C2 at `n = 1` and the largest raw word. -/
theorem uint32n_lt_witness :
    uint32nOpt 1 18446744073709551615 < 1 ∧ uint32nGeneral 1 18446744073709551615 < 1 ∧
      ((1 : Nat) = 1 →
        uint32nOpt 1 18446744073709551615 = 0 ∧ uint32nGeneral 1 18446744073709551615 = 0) :=
  uint32n_lt 1 18446744073709551615 (by norm_num) (by norm_num) (by norm_num)

/-! ## Counting the raw words sent to each value -/

theorem ceilDiv_le_iff {a n v : Nat} (hn : 0 < n) : ceilDiv a n ≤ v ↔ a ≤ n * v := by
  unfold ceilDiv
  rw [Nat.div_le_iff_le_mul_add_pred hn]
  generalize n * v = p
  omega

theorem lt_ceilDiv_iff {b n v : Nat} (hn : 0 < n) : v < ceilDiv b n ↔ n * v < b := by
  rw [← not_le, ceilDiv_le_iff hn, not_le]

theorem ceilDiv_succ_le {n k : Nat} (hn : 0 < n) (hk : k < n) :
    ceilDiv ((k + 1) * 2 ^ 64) n ≤ 2 ^ 64 := by
  rw [ceilDiv_le_iff hn]
  exact Nat.mul_le_mul_right _ hk

theorem filter_res2_eq_Ico {n k : Nat} (hn0 : 0 < n) (hn : n < 2 ^ 32) (hk : k < n) :
    (Finset.range (2 ^ 64)).filter (fun v => res2 n v = k)
      = Finset.Ico (ceilDiv (k * 2 ^ 64) n) (ceilDiv ((k + 1) * 2 ^ 64) n) := by
  ext v
  simp only [Finset.mem_filter, Finset.mem_range, Finset.mem_Ico, ceilDiv_le_iff hn0,
    lt_ceilDiv_iff hn0]
  constructor
  · rintro ⟨hv, h⟩
    rw [res2_eq hn hv] at h
    generalize n * v = p at h ⊢
    omega
  · rintro ⟨h1, h2⟩
    have hv : v < 2 ^ 64 := by
      have := ceilDiv_succ_le hn0 hk
      have h3 : v < ceilDiv ((k + 1) * 2 ^ 64) n := (lt_ceilDiv_iff hn0).2 h2
      omega
    refine ⟨hv, ?_⟩
    rw [res2_eq hn hv]
    generalize n * v = p at h1 h2 ⊢
    omega

theorem ceilDiv_step {a m n : Nat} (hn : 0 < n) :
    ceilDiv (a + m) n
      = ceilDiv a n + m / n + if n ≤ (a + n - 1) % n + m % n then 1 else 0 := by
  unfold ceilDiv
  have e : a + m + n - 1 = (a + n - 1) + m := by omega
  rw [e, Nat.add_div hn]

theorem preimageCount_eq {n k : Nat} (hn0 : 0 < n) (hn : n < 2 ^ 32) (hk : k < n) :
    preimageCount n k
      = 2 ^ 64 / n + if n ≤ (k * 2 ^ 64 + n - 1) % n + 2 ^ 64 % n then 1 else 0 := by
  unfold preimageCount
  rw [filter_res2_eq_Ico hn0 hn hk, Nat.card_Ico]
  have e : (k + 1) * 2 ^ 64 = k * 2 ^ 64 + 2 ^ 64 := by ring
  rw [e, ceilDiv_step hn0, Nat.add_assoc, Nat.add_sub_cancel_left]

/-- C3, counterexample: for `n = 3` the reduction sends 6148914691236517206 raw
words to `0` but only 6148914691236517205 to `1`, so the two counts differ. -/
theorem preimageCount_three_ne :
    (0 : Nat) < 3 ∧ (1 : Nat) < 3 ∧
      preimageCount 3 0 = 6148914691236517206 ∧
      preimageCount 3 1 = 6148914691236517205 ∧
      preimageCount 3 0 ≠ preimageCount 3 1 := by
  have h0 : preimageCount 3 0 = 6148914691236517206 := by
    rw [preimageCount_eq (by norm_num) (by norm_num) (by norm_num)]
    norm_num
  have h1 : preimageCount 3 1 = 6148914691236517205 := by
    rw [preimageCount_eq (by norm_num) (by norm_num) (by norm_num)]
    norm_num
  refine ⟨by norm_num, by norm_num, h0, h1, ?_⟩
  rw [h0, h1]
  norm_num

/-- C3, amended: for every 32-bit `n > 0` and every `k` in `[0, n)`, the number
of 64-bit raw words that the reduction `v ↦ hi64(n * v)` sends to `k` is
`⌊2^64 / n⌋` or `⌊2^64 / n⌋ + 1`, so two counts differ by at most one; when `n`
divides `2^64` every count is exactly `2^64 / n`. -/
theorem preimageCount_near_uniform (n k : Nat) (hn0 : 0 < n) (hn : n < 2 ^ 32) (hk : k < n) :
    (preimageCount n k = 2 ^ 64 / n ∨ preimageCount n k = 2 ^ 64 / n + 1) ∧
      (n ∣ 2 ^ 64 → preimageCount n k = 2 ^ 64 / n) := by
  rw [preimageCount_eq hn0 hn hk]
  refine ⟨?_, fun hd => ?_⟩
  · split_ifs <;> simp
  · have h0 : 2 ^ 64 % n = 0 := Nat.mod_eq_zero_of_dvd hd
    have h1 := Nat.mod_lt (k * 2 ^ 64 + n - 1) hn0
    rw [h0, if_neg (by omega)]
    rfl

/-- Witness for the amended C3 at `n = 4`, which divides `2^64`, and `k = 3`. -/
theorem preimageCount_near_uniform_witness :
    (preimageCount 4 3 = 2 ^ 64 / 4 ∨ preimageCount 4 3 = 2 ^ 64 / 4 + 1) ∧
      (4 ∣ 2 ^ 64 → preimageCount 4 3 = 2 ^ 64 / 4) :=
  preimageCount_near_uniform 4 3 (by norm_num) (by norm_num) (by norm_num)

/-! ## `ExpFloat64`: table lookups and field split -/

set_option maxRecDepth 100000 in
theorem keTable_length : keTable.length = 256 := rfl

set_option maxRecDepth 100000 in
theorem weTable_length : weTable.length = 256 := rfl

set_option maxRecDepth 100000 in
theorem feTable_length : feTable.length = 256 := rfl

set_option maxRecDepth 100000 in
theorem ke_zero : ke 0 = .ok 0xe290a139 := rfl

set_option maxRecDepth 100000 in
theorem ke_one : ke 1 = .ok 0 := rfl

set_option maxRecDepth 100000 in
theorem ke_two : ke 2 = .ok 0x9beadebc := rfl

set_option maxRecDepth 100000 in
theorem we_zero : we 0 = .ok 2.0249554585039273e-09 := rfl

set_option maxRecDepth 100000 in
theorem we_two : we 2 = .ok 2.4409617196260667e-11 := rfl

theorem index_isOk {α : Type} {t : List α} {i : Nat} (h : i < t.length) :
    ∃ a, index t i = .ok a := by
  refine ⟨t.get ⟨i, h⟩, ?_⟩
  unfold index
  rw [List.getElem?_eq_getElem h]
  rfl

theorem expI_eq (v : Nat) : expI v = v % 256 := by
  unfold expI
  exact Nat.and_pow_two_sub_one_eq_mod v 8

theorem expJ_eq (v : Nat) : expJ v = v / 256 % 2 ^ 32 := by
  simp only [expJ, uint64, uint32, Nat.shiftRight_eq_div_pow]
  omega

theorem expI_lt (v : Nat) : expI v < 256 := by
  rw [expI_eq]
  omega

theorem ke_expI_isOk (v : Nat) : ∃ k, ke (expI v) = .ok k :=
  index_isOk (by rw [keTable_length]; exact expI_lt v)

theorem we_expI_isOk (v : Nat) : ∃ w, we (expI v) = .ok w :=
  index_isOk (by rw [weTable_length]; exact expI_lt v)

/-! ## `ExpFloat64`: the branches of one iteration -/

theorem expIter_fast {σ : Type} (g : Gen σ) (Log Exp : ℚ → ℚ) (s : σ) {k : Nat} {w : ℚ}
    (hk : ke (expI (g.Uint64 s).1) = .ok k) (hw : we (expI (g.Uint64 s).1) = .ok w)
    (hj : expJ (g.Uint64 s).1 < k) :
    expIter g Log Exp s
      = .ok (.fastAccept ((expJ (g.Uint64 s).1 : ℚ) * w) (g.Uint64 s).2) := by
  unfold expIter
  simp only [hk, hw]
  simp [bind, Except.bind, hj, pure, Except.pure]

theorem expIter_tail {σ : Type} (g : Gen σ) (Log Exp : ℚ → ℚ) (s : σ) {k : Nat} {w : ℚ}
    (hk : ke (expI (g.Uint64 s).1) = .ok k) (hw : we (expI (g.Uint64 s).1) = .ok w)
    (hj : k ≤ expJ (g.Uint64 s).1) (hi : expI (g.Uint64 s).1 = 0) :
    expIter g Log Exp s
      = .ok (.tail (re - Log (g.Float64 (g.Uint64 s).2).1) (g.Float64 (g.Uint64 s).2).2) := by
  unfold expIter
  simp only [hk, hw]
  simp [bind, Except.bind, Nat.not_lt.2 hj, hi, pure, Except.pure]

theorem ExpFloat64_zero {σ : Type} (g : Gen σ) (Log Exp : ℚ → ℚ) (s : σ) :
    ExpFloat64 g Log Exp 0 s = .error .outOfFuel := rfl

set_option maxRecDepth 100000 in
theorem ExpFloat64_succ {σ : Type} (g : Gen σ) (Log Exp : ℚ → ℚ) (fuel : Nat) (s : σ) :
    ExpFloat64 g Log Exp (fuel + 1) s =
      match expIter g Log Exp s with
      | .error e => .error e
      | .ok (.fastAccept x s1) => .ok (x, s1)
      | .ok (.tail x s1) => .ok (x, s1)
      | .ok (.slowAccept x s1) => .ok (x, s1)
      | .ok (.reject s1) => ExpFloat64 g Log Exp fuel s1 := by
  rw [ExpFloat64]

theorem ExpFloat64_of_fast {σ : Type} (g : Gen σ) (Log Exp : ℚ → ℚ) (s s1 : σ) (x : ℚ)
    (fuel : Nat) (h : expIter g Log Exp s = .ok (.fastAccept x s1)) :
    ExpFloat64 g Log Exp (fuel + 1) s = .ok (x, s1) := by
  rw [ExpFloat64_succ, h]

theorem ExpFloat64_of_tail {σ : Type} (g : Gen σ) (Log Exp : ℚ → ℚ) (s s1 : σ) (x : ℚ)
    (fuel : Nat) (h : expIter g Log Exp s = .ok (.tail x s1)) :
    ExpFloat64 g Log Exp (fuel + 1) s = .ok (x, s1) := by
  rw [ExpFloat64_succ, h]

/-! ## `ExpFloat64`: theorems -/

/-- C4, the code at the failing input: when the first raw word is `0` (layer
`i = 0`, mantissa `j = 0`), `ExpFloat64` returns `float64(0) * we[0] = 0`
through the fast-accept branch, a value outside `(0, +MaxFloat64]`. -/
theorem ExpFloat64_returns_zero (Log Exp : ℚ → ℚ) (fuel : Nat) (us : List ℚ) :
    ExpFloat64 tapeGen Log Exp (fuel + 1) ([0], us) = .ok (0, ([], us)) := by
  apply ExpFloat64_of_fast
  have hI : expI (tapeGen.Uint64 (([0], us) : List Nat × List ℚ)).1 = 0 := by
    simp [tapeGen, uint64, expI_eq]
  have h := expIter_fast tapeGen Log Exp (([0], us) : List Nat × List ℚ)
    (k := 0xe290a139) (w := 2.0249554585039273e-09)
    (by rw [hI]; exact ke_zero) (by rw [hI]; exact we_zero)
    (by simp [tapeGen, uint64, expJ_eq])
  rw [h]
  simp [tapeGen, uint64, expJ_eq]

/-- C5, counterexample: `ke[0]` is `0xe290a139`, not `0`, and the raw word
`v = 0x500` (low byte `0`, `j = 5`) returns `5 * we[0]` through the fast-accept
branch, drawing no uniform. -/
theorem expIter_layer_zero_fastAccept :
    ke 0 = .ok 0xe290a139 ∧ ke 0 ≠ .ok 0 ∧ expI 0x500 = 0 ∧ expJ 0x500 = 5 ∧
      expIter tapeGen (fun _ => 0) (fun _ => 0) ([0x500], [1 / 2])
        = .ok (.fastAccept (5 * 2.0249554585039273e-09) ([], [1 / 2])) := by
  refine ⟨ke_zero, ?_, by simp [expI_eq], by simp [expJ_eq], ?_⟩
  · rw [ke_zero]
    intro h
    cases h
  · have hI : expI (tapeGen.Uint64 (([0x500], [1 / 2]) : List Nat × List ℚ)).1 = 0 := by
      simp [tapeGen, uint64, expI_eq]
    have h := expIter_fast tapeGen (fun _ => 0) (fun _ => 0)
      (([0x500], [1 / 2]) : List Nat × List ℚ)
      (k := 0xe290a139) (w := 2.0249554585039273e-09)
      (by rw [hI]; exact ke_zero) (by rw [hI]; exact we_zero)
      (by simp [tapeGen, uint64, expJ_eq])
    rw [h]
    simp [tapeGen, uint64, expJ_eq]

/-- C5, amended: `ke[0] = 0xe290a139`, and for every raw word whose low byte
is `0` the iteration returns: through the fast-accept branch with
`x = float64(j) * we[0]` when `j < ke[0]`, and through the logarithmic tail
`re - ln(u)`, `u` the next uniform draw, exactly when `j ≥ ke[0]`. -/
theorem ExpFloat64_layer_zero {σ : Type} (g : Gen σ) (Log Exp : ℚ → ℚ) (s : σ) (fuel : Nat)
    (hi : expI (g.Uint64 s).1 = 0) :
    ke 0 = .ok 0xe290a139 ∧
    (expJ (g.Uint64 s).1 < 0xe290a139 →
      expIter g Log Exp s
          = .ok (.fastAccept ((expJ (g.Uint64 s).1 : ℚ) * 2.0249554585039273e-09)
              (g.Uint64 s).2) ∧
        ExpFloat64 g Log Exp (fuel + 1) s
          = .ok ((expJ (g.Uint64 s).1 : ℚ) * 2.0249554585039273e-09, (g.Uint64 s).2)) ∧
    (0xe290a139 ≤ expJ (g.Uint64 s).1 →
      expIter g Log Exp s
          = .ok (.tail (re - Log (g.Float64 (g.Uint64 s).2).1) (g.Float64 (g.Uint64 s).2).2) ∧
        ExpFloat64 g Log Exp (fuel + 1) s
          = .ok (re - Log (g.Float64 (g.Uint64 s).2).1, (g.Float64 (g.Uint64 s).2).2)) := by
  have hk : ke (expI (g.Uint64 s).1) = .ok 0xe290a139 := by rw [hi]; exact ke_zero
  have hw : we (expI (g.Uint64 s).1) = .ok 2.0249554585039273e-09 := by rw [hi]; exact we_zero
  refine ⟨ke_zero, fun hj => ?_, fun hj => ?_⟩
  · have h := expIter_fast g Log Exp s hk hw hj
    exact ⟨h, ExpFloat64_of_fast g Log Exp s _ _ fuel h⟩
  · have h := expIter_tail g Log Exp s hk hw hj hi
    exact ⟨h, ExpFloat64_of_tail g Log Exp s _ _ fuel h⟩

/-- Witness for the amended C5: the raw word `0xe290a139 * 256` has low byte
`0` and `j = ke[0]`, so the iteration takes the tail with the uniform `1 / 2`. -/
theorem ExpFloat64_layer_zero_witness :
    expIter tapeGen (fun _ => 0) (fun _ => 0) ([0xe290a139 * 256], [1 / 2])
      = .ok (.tail (re - 0) ([], [])) := by
  have hi : expI (tapeGen.Uint64 (([0xe290a139 * 256], [1 / 2]) : List Nat × List ℚ)).1 = 0 := by
    simp [tapeGen, uint64, expI_eq]
  have h := (ExpFloat64_layer_zero tapeGen (fun _ => 0) (fun _ => 0)
    (([0xe290a139 * 256], [1 / 2]) : List Nat × List ℚ) 0 hi).2.2
    (by simp [tapeGen, uint64, expJ_eq])
  rw [h.1]
  simp [tapeGen]

/-- C9: for every raw word `v` the layer index is `i = v mod 256` and the
mantissa field is `j = ⌊v / 256⌋ mod 2^32`, hence `j < 2^32` and `i < 256`;
words with the same bits above the low byte give the same `j`, and words with
the same low byte give the same `i`. -/
theorem expFields_split (v : Nat) :
    expI v = v % 256 ∧ expJ v = v / 256 % 2 ^ 32 ∧ expJ v < 2 ^ 32 ∧ expI v < 256 ∧
      (∀ v2 : Nat, v2 / 256 = v / 256 → expJ v2 = expJ v) ∧
      (∀ v2 : Nat, v2 % 256 = v % 256 → expI v2 = expI v) := by
  refine ⟨expI_eq v, expJ_eq v, ?_, expI_lt v, fun v2 h => ?_, fun v2 h => ?_⟩
  · rw [expJ_eq]
    omega
  · rw [expJ_eq, expJ_eq, h]
  · rw [expI_eq, expI_eq, h]

/-- Witness for C9 at `v = 0x123456789ABCDEF0`, against the words `0x…DE0F`
(same bits above the low byte) and `0xF0` (same low byte). -/
theorem expFields_split_witness :
    expI 0x123456789ABCDEF0 = 0xF0 ∧ expJ 0x123456789ABCDEF0 = 0x789ABCDE ∧
      expJ 0x123456789ABCDE0F = expJ 0x123456789ABCDEF0 ∧
      expI 0xF0 = expI 0x123456789ABCDEF0 := by
  have h := expFields_split 0x123456789ABCDEF0
  refine ⟨h.1.trans (by norm_num), h.2.1.trans (by norm_num),
    h.2.2.2.2.1 0x123456789ABCDE0F (by norm_num), h.2.2.2.2.2 0xF0 (by norm_num)⟩

/-- C10: for every raw word `v`, the lookups `ke[i]` and `we[i]` succeed, and
if `j < ke[i]` then `ExpFloat64` returns `x = float64(j) * we[i]` in that
iteration, leaving the generator in the state reached by the single `Uint64`
call: one 64-bit word consumed, no `Float64` draw. -/
theorem ExpFloat64_fastAccept {σ : Type} (g : Gen σ) (Log Exp : ℚ → ℚ) (s : σ) (fuel : Nat) :
    ∃ (k : Nat) (w : ℚ),
      ke (expI (g.Uint64 s).1) = .ok k ∧ we (expI (g.Uint64 s).1) = .ok w ∧
      (expJ (g.Uint64 s).1 < k →
        expIter g Log Exp s
            = .ok (.fastAccept ((expJ (g.Uint64 s).1 : ℚ) * w) (g.Uint64 s).2) ∧
          ExpFloat64 g Log Exp (fuel + 1) s
            = .ok ((expJ (g.Uint64 s).1 : ℚ) * w, (g.Uint64 s).2)) := by
  obtain ⟨k, hk⟩ := ke_expI_isOk (g.Uint64 s).1
  obtain ⟨w, hw⟩ := we_expI_isOk (g.Uint64 s).1
  refine ⟨k, w, hk, hw, fun hj => ?_⟩
  have h := expIter_fast g Log Exp s hk hw hj
  exact ⟨h, ExpFloat64_of_fast g Log Exp s _ _ fuel h⟩

/-- Witness for C10: the raw word `0x702` (layer `2`, `j = 7 < ke[2]`) returns
`7 * we[2]`; the word is consumed and the pending uniform `1 / 2` is not. -/
theorem ExpFloat64_fastAccept_witness :
    ExpFloat64 tapeGen (fun _ => 0) (fun _ => 0) 1 ([0x702], [1 / 2])
      = .ok (7 * 2.4409617196260667e-11, ([], [1 / 2])) := by
  obtain ⟨k, w, hk, hw, h⟩ := ExpFloat64_fastAccept tapeGen (fun _ => 0) (fun _ => 0)
    (([0x702], [1 / 2]) : List Nat × List ℚ) 0
  have hi : expI (tapeGen.Uint64 (([0x702], [1 / 2]) : List Nat × List ℚ)).1 = 2 := by
    simp [tapeGen, uint64, expI_eq]
  have hj : expJ (tapeGen.Uint64 (([0x702], [1 / 2]) : List Nat × List ℚ)).1 = 7 := by
    simp [tapeGen, uint64, expJ_eq]
  rw [hi] at hk hw
  have hk2 : ke 2 = .ok 0x9beadebc := ke_two
  rw [hk2] at hk
  rw [we_two] at hw
  cases hk
  cases hw
  rw [hj] at h
  rw [(h (by norm_num)).2]
  simp [tapeGen]

/-! ## State codec round trip -/

theorem le64_length (w : Nat) : (le64 w).length = 8 := by
  simp [le64]

theorem fromLE_le64 {w : Nat} (hw : w < 2 ^ 64) : uint64 (fromLE (le64 w)) = w := by
  simp only [le64, List.range, List.range.loop, List.map, fromLE, uint64,
    Nat.shiftRight_eq_div_pow]
  omega

theorem decodeWords_encodeWords :
    ∀ (ws : List Nat), (∀ w ∈ ws, w < 2 ^ 64) →
      ∀ rest : List Nat, (decodeWords ws.length (encodeWords ws ++ rest)).1 = ws
  | [], _, _ => rfl
  | w :: ws, h, rest => by
    have hw : w < 2 ^ 64 := h w (List.mem_cons_self _ _)
    have hws : ∀ x ∈ ws, x < 2 ^ 64 := fun x hx => h x (List.mem_cons_of_mem _ hx)
    have e : encodeWords (w :: ws) ++ rest = le64 w ++ (encodeWords ws ++ rest) := by
      simp [encodeWords]
    have ht : (le64 w ++ (encodeWords ws ++ rest)).take 8 = le64 w := by
      rw [List.take_append_of_le_length (by rw [le64_length])]
      exact List.take_of_length_le (by rw [le64_length])
    have hd : (le64 w ++ (encodeWords ws ++ rest)).drop 8 = encodeWords ws ++ rest := by
      rw [List.drop_append_of_le_length (by rw [le64_length])]
      rw [List.drop_of_length_le (by rw [le64_length])]
      rfl
    show (decodeWords (ws.length + 1) (encodeWords (w :: ws) ++ rest)).1 = w :: ws
    rw [e]
    simp only [decodeWords, ht, hd, fromLE_le64 hw, decodeWords_encodeWords ws hws rest]

theorem encodeWords_length (ws : List Nat) : (encodeWords ws).length = 8 * ws.length := by
  induction ws with
  | nil => rfl
  | cons w ws ih =>
    simp only [encodeWords, List.length_append, le64_length, ih, List.length_cons]
    omega

theorem decodeWords_state {N : Nat} (st : EngineState N) :
    decodeWords N (encodeWords st.1) = st := by
  apply Subtype.ext
  have h := decodeWords_encodeWords st.1 st.2.2 []
  rw [st.2.1, List.append_nil] at h
  exact h

theorem UnmarshalBinary_MarshalBinary {N : Nat} (tag : List Nat) (target r : Rand N) :
    UnmarshalBinary tag target (MarshalBinary tag r)
      = .ok { target with state := r.state } := by
  unfold UnmarshalBinary MarshalBinary
  have hlen : (tag ++ encodeWords r.state.1).length = tag.length + 8 * N := by
    rw [List.length_append, encodeWords_length, r.state.2.1]
  have htake : (tag ++ encodeWords r.state.1).take tag.length = tag := by
    simp
  have hdrop : (tag ++ encodeWords r.state.1).drop tag.length = encodeWords r.state.1 := by
    simp
  rw [if_neg (not_not.2 hlen), if_neg (not_not.2 htake), hdrop, decodeWords_state]

/-- C6: for every engine, version tag and seed `s`, unmarshalling the bytes
marshalled from `New(s)` into a zero-value `Rand` succeeds, marshalling the
restored generator gives the same bytes, and for every `k` the next `k` words
of the restored generator are those of the original. -/
theorem marshal_roundtrip {N : Nat} (E : BitEngine N) (tag : List Nat) (s : Nat) :
    ∃ r2 : Rand N,
      UnmarshalBinary tag (zeroRand N) (MarshalBinary tag (New E s)) = .ok r2 ∧
      MarshalBinary tag r2 = MarshalBinary tag (New E s) ∧
      ∀ k : Nat, drawWords (next_u64 E) k r2 = drawWords (next_u64 E) k (New E s) := by
  refine ⟨New E s, ?_, rfl, fun _ => rfl⟩
  rw [UnmarshalBinary_MarshalBinary]
  rfl

/-! ## Chunked reads -/

theorem Read_add {N : Nat} (E : BitEngine N) :
    ∀ (a b : Nat) (r : Rand N),
      Read E (a + b) r
        = ((Read E a r).1 ++ (Read E b (Read E a r).2).1, (Read E b (Read E a r).2).2)
  | 0, b, r => by simp [Read]
  | a + 1, b, r => by
    have e : a + 1 + b = (a + b) + 1 := by omega
    rw [e]
    simp only [Read, Read_add E a b, List.cons_append]

theorem readChunks_eq_Read {N : Nat} (E : BitEngine N) :
    ∀ (cs : List Nat) (r : Rand N), readChunks E cs r = Read E cs.sum r
  | [], r => by simp [readChunks, Read]
  | c :: cs, r => by
    simp only [readChunks, List.sum_cons, Read_add E c cs.sum, readChunks_eq_Read E cs]

/-- C7: for every engine, seed `s` and list of chunk lengths (zeros allowed),
one `Read` call per chunk on a generator seeded with `s` writes exactly the
bytes that a single `Read` of the total length writes on a generator seeded
with `s`, and leaves the generator in the same state. -/
theorem chunked_read {N : Nat} (E : BitEngine N) (s : Nat) (cs : List Nat) :
    (readChunks E cs (New E s)).1 = (Read E cs.sum (New E s)).1 ∧
      (readChunks E cs (New E s)).2 = (Read E cs.sum (New E s)).2 := by
  rw [readChunks_eq_Read]
  exact ⟨rfl, rfl⟩

/-! ## Bounded samplers -/

theorem mul_div_two_pow_lt {w n v : Nat} (hn : 0 < n) (hv : v < 2 ^ w) :
    v * n / 2 ^ w < n := by
  rw [Nat.div_lt_iff_lt_mul (pow_pos (by norm_num) w), Nat.mul_comm n]
  exact Nat.mul_lt_mul_of_pos_right hv hn

theorem lemireRetry_spec {ρ : Type} (w : Nat) (draw : ρ → Nat × ρ) (n t : Nat)
    (hn : 0 < n) (hdraw : ∀ r, (draw r).1 < 2 ^ w) :
    ∀ (fuel hi lo : Nat) (r : ρ), hi < n →
      (∀ x r1, lemireRetry w draw n t fuel hi lo r = .ok (x, r1) → x < n) ∧
      (∀ e, lemireRetry w draw n t fuel hi lo r = .error e →
        e = .outOfFuel ∧ lo < t ∧ ∀ v ∈ drawWords draw fuel r, v * n % 2 ^ w < t)
  | 0, hi, lo, r, hhi => by
    unfold lemireRetry
    by_cases h : lo < t
    · simp [h, drawWords]
    · simp only [if_neg h]
      refine ⟨fun x r1 hx => ?_, fun e he => ?_⟩
      · cases hx
        exact hhi
      · cases he
  | fuel + 1, hi, lo, r, hhi => by
    unfold lemireRetry
    by_cases h : lo < t
    · simp only [if_pos h]
      have ih := lemireRetry_spec w draw n t hn hdraw fuel ((draw r).1 * n / 2 ^ w)
        ((draw r).1 * n % 2 ^ w) (draw r).2 (mul_div_two_pow_lt hn (hdraw r))
      refine ⟨ih.1, fun e he => ?_⟩
      obtain ⟨h1, h2, h3⟩ := ih.2 e he
      refine ⟨h1, h, fun v hv => ?_⟩
      rcases List.mem_cons.1 hv with hv | hv
      · rw [hv]
        exact h2
      · exact h3 v hv
    · simp only [if_neg h]
      refine ⟨fun x r1 hx => ?_, fun e he => ?_⟩
      · cases hx
        exact hhi
      · cases he

theorem boundedDraw_spec {ρ : Type} (w : Nat) (draw : ρ → Nat × ρ) (fuel n : Nat) (r : ρ)
    (hn : 0 < n) (hdraw : ∀ r, (draw r).1 < 2 ^ w) :
    (∀ x r1, boundedDraw w draw fuel n r = .ok (x, r1) → x < n) ∧
    (∀ e, boundedDraw w draw fuel n r = .error e →
      e = .outOfFuel ∧ ¬ Clears w n (drawWords draw (fuel + 1) r)) := by
  unfold boundedDraw
  rw [if_neg (Nat.pos_iff_ne_zero.1 hn)]
  by_cases h1 : n = 1
  · rw [if_pos h1]
    refine ⟨fun x r1 hx => ?_, fun e he => ?_⟩
    · cases hx
      omega
    · cases he
  · rw [if_neg h1]
    have hhi := mul_div_two_pow_lt hn (hdraw r)
    by_cases hlo : (draw r).1 * n % 2 ^ w < n
    · simp only [if_pos hlo]
      have hs := lemireRetry_spec w draw n ((2 ^ w - n) % n) hn hdraw fuel
        ((draw r).1 * n / 2 ^ w) ((draw r).1 * n % 2 ^ w) (draw r).2 hhi
      refine ⟨hs.1, fun e he => ?_⟩
      obtain ⟨h2, h3, h4⟩ := hs.2 e he
      refine ⟨h2, ?_⟩
      rintro ⟨v, hv, hc⟩
      rcases List.mem_cons.1 hv with hv | hv
      · rw [hv] at hc
        omega
      · have := h4 v hv
        omega
    · simp only [if_neg hlo]
      refine ⟨fun x r1 hx => ?_, fun e he => ?_⟩
      · cases hx
        exact hhi
      · cases he

theorem next_u64_lt {N : Nat} (E : BitEngine N) (r : Rand N) : (next_u64 E r).1 < 2 ^ 64 :=
  Nat.mod_lt _ (by norm_num)

theorem next_u32_lt {N : Nat} (E : BitEngine N) (r : Rand N) : (next_u32 E r).1 < 2 ^ 32 :=
  Nat.mod_lt _ (by norm_num)

theorem int64_of_lt {x : Nat} (h : x < 2 ^ 63) : int64 x = (x : Int) := by
  unfold int64 uint64
  have e : x % 2 ^ 64 = x := Nat.mod_eq_of_lt (by omega)
  rw [e, if_pos h]

theorem int32_of_lt {x : Nat} (h : x < 2 ^ 31) : int32 x = (x : Int) := by
  unfold int32 uint32
  have e : x % 2 ^ 32 = x := Nat.mod_eq_of_lt (by omega)
  rw [e, if_pos h]

theorem signedDraw_spec {ρ : Type} (draw : Nat → ρ → Except Fault (Nat × ρ)) (conv : Nat → Int)
    (n : Int) (r : ρ) (hn : 1 ≤ n) (P : Prop)
    (hconv : ∀ x : Nat, x < n.toNat → conv x = (x : Int))
    (hdraw : (∀ x r1, draw n.toNat r = .ok (x, r1) → x < n.toNat) ∧
      (∀ e, draw n.toNat r = .error e → e = .outOfFuel ∧ P)) :
    (∀ x r1, signedDraw draw conv n r = .ok (x, r1) → 0 ≤ x ∧ x < n) ∧
    (∀ e, signedDraw draw conv n r = .error e → e = .outOfFuel ∧ P) := by
  unfold signedDraw
  rw [if_neg (by omega)]
  cases hres : draw n.toNat r with
  | error e0 =>
    refine ⟨fun x r1 hx => ?_, fun e he => ?_⟩
    · cases hx
    · cases he
      exact hdraw.2 e0 hres
  | ok p =>
    obtain ⟨y, r2⟩ := p
    have hy := hdraw.1 y r2 hres
    refine ⟨fun x r1 hx => ?_, fun e he => ?_⟩
    · cases hx
      rw [hconv y hy]
      omega
    · cases he

theorem lemireRetry_zeroEngine (r : Rand 1) :
    ∀ fuel : Nat,
      lemireRetry 64 (next_u64 zeroEngine) 3 1 fuel 0 0 r = .error .outOfFuel
  | 0 => by
    unfold lemireRetry
    rw [if_pos (by norm_num)]
  | fuel + 1 => by
    have hd : (next_u64 zeroEngine r).1 = 0 := rfl
    unfold lemireRetry
    rw [if_pos (by norm_num)]
    simp only [hd, Nat.zero_mul, Nat.zero_div, Nat.zero_mod]
    exact lemireRetry_zeroEngine _ fuel

/-- C8, counterexample: on the engine that always yields the word `0`, with the
bound `n = 3`, the first call of `Uint64n` on `New(s)` returns no value at all:
for every seed and every amount of fuel the low half `0` stays below the
threshold `(2^64 - 3) mod 3 = 1` and the call is still redrawing. -/
theorem Uint64n_zeroEngine_never_returns :
    ((1 : Nat) ≤ 3 ∧ (3 : Nat) < 2 ^ 64 ∧ (2 ^ 64 - 3) % 3 = 1) ∧
      ∀ s fuel : Nat, Uint64n zeroEngine fuel 3 (New zeroEngine s) = .error .outOfFuel := by
  refine ⟨⟨by norm_num, by norm_num, by norm_num⟩, fun s fuel => ?_⟩
  have hd : (next_u64 zeroEngine (New zeroEngine s)).1 = 0 := rfl
  unfold Uint64n boundedDraw
  rw [if_neg (by norm_num), if_neg (by norm_num)]
  simp only [hd, Nat.zero_mul, Nat.zero_div, Nat.zero_mod]
  rw [if_pos (by norm_num)]
  exact lemireRetry_zeroEngine _ fuel

/-- C8, amended: for every engine, seed `s`, amount of fuel and bound `n >= 1`
of the operand type, every value that the first call of `Uint64n`, `Int63n`,
`Int31n` and `Intn` on `New(s)` returns lies in `[0, n)`; the call never
reports `InvalidArgument`, and it fails to return within `fuel` redraws only
when none of the `fuel + 1` words drawn clears the rejection threshold. -/
theorem bounded_draws_in_range {N : Nat} (E : BitEngine N) (s fuel : Nat) :
    (∀ n : Nat, 1 ≤ n → n < 2 ^ 64 →
      (∀ x r1, Uint64n E fuel n (New E s) = .ok (x, r1) → x < n) ∧
      (∀ e, Uint64n E fuel n (New E s) = .error e →
        e = .outOfFuel ∧ ¬ Clears 64 n (drawWords (next_u64 E) (fuel + 1) (New E s)))) ∧
    (∀ n : Int, 1 ≤ n → n < 2 ^ 63 →
      (∀ x r1, Int63n E fuel n (New E s) = .ok (x, r1) → 0 ≤ x ∧ x < n) ∧
      (∀ e, Int63n E fuel n (New E s) = .error e →
        e = .outOfFuel ∧
          ¬ Clears 64 n.toNat (drawWords (next_u64 E) (fuel + 1) (New E s)))) ∧
    (∀ n : Int, 1 ≤ n → n < 2 ^ 31 →
      (∀ x r1, Int31n E fuel n (New E s) = .ok (x, r1) → 0 ≤ x ∧ x < n) ∧
      (∀ e, Int31n E fuel n (New E s) = .error e →
        e = .outOfFuel ∧
          ¬ Clears 32 n.toNat (drawWords (next_u32 E) (fuel + 1) (New E s)))) ∧
    (∀ n : Int, 1 ≤ n → n < 2 ^ 63 →
      (∀ x r1, Intn E fuel n (New E s) = .ok (x, r1) → 0 ≤ x ∧ x < n) ∧
      (∀ e, Intn E fuel n (New E s) = .error e →
        e = .outOfFuel ∧
          ¬ Clears 64 n.toNat (drawWords (next_u64 E) (fuel + 1) (New E s)))) := by
  have h64 : ∀ n : Int, 1 ≤ n → n < 2 ^ 63 →
      (∀ x r1, signedDraw (Uint64n E fuel) int64 n (New E s) = .ok (x, r1) → 0 ≤ x ∧ x < n) ∧
      (∀ e, signedDraw (Uint64n E fuel) int64 n (New E s) = .error e →
        e = .outOfFuel ∧
          ¬ Clears 64 n.toNat (drawWords (next_u64 E) (fuel + 1) (New E s))) := by
    intro n h1 h2
    exact signedDraw_spec (Uint64n E fuel) int64 n (New E s) h1 _
      (fun x hx => int64_of_lt (by omega))
      (boundedDraw_spec 64 (next_u64 E) fuel n.toNat (New E s) (by omega) (next_u64_lt E))
  refine ⟨fun n h1 _ => ?_, h64, fun n h1 h2 => ?_, h64⟩
  · exact boundedDraw_spec 64 (next_u64 E) fuel n (New E s) (by omega) (next_u64_lt E)
  · exact signedDraw_spec (Uint32n E fuel) int32 n (New E s) h1 _
      (fun x hx => int32_of_lt (by omega))
      (boundedDraw_spec 32 (next_u32 E) fuel n.toNat (New E s) (by omega) (next_u32_lt E))

/-- Witness for the amended C8 on the Weyl engine seeded with `3`, whose first
word `0x9e3779b97f4a7c18` is rejected for each of the bounds below (the low
half of the product is `0`): without a redraw the call runs out of fuel, with
one redraw `Uint64n` returns for `n = 3 * 2^62`, `Int63n` for `n = 3 * 2^61`
and `Int31n` for `n = 3 * 2^29`, each time below the bound. -/
theorem bounded_draws_in_range_witness :
    (Uint64n weylEngine 0 13835058055282163712 (New weylEngine 3) = .error .outOfFuel ∧
      ∃ r1, Uint64n weylEngine 1 13835058055282163712 (New weylEngine 3)
          = .ok (3266014173702634017, r1) ∧
        (3266014173702634017 : Nat) < 13835058055282163712) ∧
    (Int63n weylEngine 0 6917529027641081856 (New weylEngine 3) = .error .outOfFuel ∧
      ∃ r1, Int63n weylEngine 1 6917529027641081856 (New weylEngine 3)
          = .ok (1633007086851317008, r1) ∧
        (0 : Int) ≤ 1633007086851317008 ∧ (1633007086851317008 : Int) < 6917529027641081856) ∧
    (Int31n weylEngine 0 1610612736 (New weylEngine 3) = .error .outOfFuel ∧
      ∃ r1, Int31n weylEngine 1 1610612736 (New weylEngine 3) = .ok (1601690896, r1) ∧
        (0 : Int) ≤ 1601690896 ∧ (1601690896 : Int) < 1610612736) :=
  ⟨⟨rfl, _, rfl,
      ((bounded_draws_in_range weylEngine 3 1).1 13835058055282163712
        (by norm_num) (by norm_num)).1 3266014173702634017 _ rfl⟩,
    ⟨rfl, _, rfl,
      ((bounded_draws_in_range weylEngine 3 1).2.1 6917529027641081856
        (by norm_num) (by norm_num)).1 1633007086851317008 _ rfl⟩,
    ⟨rfl, _, rfl,
      ((bounded_draws_in_range weylEngine 3 1).2.2.1 1610612736
        (by norm_num) (by norm_num)).1 1601690896 _ rfl⟩⟩

/-! ## Absence of wrap-around in the 32-bit bounded draw -/

theorem optRes_add_optCarry {n v : Nat} (hn : n < 2 ^ 32) (hv : v < 2 ^ 64) :
    optRes n v + optCarry n v = n * v / 2 ^ 64 := by
  have h96 := mul_lt_two_pow_96 hn hv
  have hn32 : n % 2 ^ 32 = n := Nat.mod_eq_of_lt hn
  have ha : v / 2 ^ 32 < 2 ^ 32 := by omega
  have hb : v % 2 ^ 32 < 2 ^ 32 := Nat.mod_lt _ (by norm_num)
  have hP : n * (v / 2 ^ 32) < 2 ^ 64 := by
    have h : n * (v / 2 ^ 32) < 2 ^ 32 * 2 ^ 32 := Nat.mul_lt_mul'' hn ha
    simpa [← pow_add] using h
  have hQ : n * (v % 2 ^ 32) < 2 ^ 64 := by
    have h : n * (v % 2 ^ 32) < 2 ^ 32 * 2 ^ 32 := Nat.mul_lt_mul'' hn hb
    simpa [← pow_add] using h
  have hsplit : n * v = n * (v / 2 ^ 32) * 2 ^ 32 + n * (v % 2 ^ 32) := by
    conv_lhs => rw [← Nat.div_add_mod v (2 ^ 32)]
    ring
  simp only [optRes, optCarry, bits.Mul32, bits.Add32, uint64, uint32,
    Nat.shiftRight_eq_div_pow, Nat.mod_mod, hn32]
  have e1 : v / 2 ^ 32 % 2 ^ 32 = v / 2 ^ 32 := Nat.mod_eq_of_lt ha
  rw [hsplit] at h96
  rw [e1, hsplit]
  generalize n * (v / 2 ^ 32) = P at hP h96 ⊢
  generalize n * (v % 2 ^ 32) = Q at hQ h96 ⊢
  omega

/-- C16: for every 32-bit `n` and 64-bit `v`, the high half `res2` of the
128-bit product is below `2^32`, so `uint32(res2)` equals `res2`; and in the
optimised formulation `res + carry` does not exceed `2^32 - 1`, so the 32-bit
addition `res += carry` yields `res + carry` itself. -/
theorem uint32n_no_wrap (n v : Nat) (hn : n < 2 ^ 32) (hv : v < 2 ^ 64) :
    res2 n v < 2 ^ 32 ∧ uint32 (res2 n v) = res2 n v ∧
      optRes n v + optCarry n v ≤ 2 ^ 32 - 1 ∧
      uint32nOpt n v = optRes n v + optCarry n v := by
  have h1 := res2_lt_two_pow_32 hn hv
  have h96 := mul_lt_two_pow_96 hn hv
  have h2 : n * v / 2 ^ 64 < 2 ^ 32 := by
    generalize n * v = p at h96 ⊢
    omega
  refine ⟨h1, Nat.mod_eq_of_lt h1, ?_, ?_⟩
  · rw [optRes_add_optCarry hn hv]
    omega
  · rw [optRes_add_optCarry hn hv, uint32nOpt_eq hn hv]

/-- Witness for C16 at the largest operands `n = 2^32 - 1`, `v = 2^64 - 1`,
where `res2 = 2^32 - 2`. -/
theorem uint32n_no_wrap_witness :
    res2 4294967295 18446744073709551615 < 2 ^ 32 ∧
      uint32 (res2 4294967295 18446744073709551615) = res2 4294967295 18446744073709551615 ∧
      optRes 4294967295 18446744073709551615 + optCarry 4294967295 18446744073709551615
        ≤ 2 ^ 32 - 1 ∧
      uint32nOpt 4294967295 18446744073709551615
        = optRes 4294967295 18446744073709551615 + optCarry 4294967295 18446744073709551615 :=
  uint32n_no_wrap 4294967295 18446744073709551615 (by norm_num) (by norm_num)

/-! ## `ExpFloat64`: the slow path and the table bounds -/

theorem index_eq_getD {α : Type} {t : List α} {i : Nat} (d : α) (h : i < t.length) :
    index t i = .ok (t.getD i d) := by
  unfold index
  rw [List.getD_eq_getElem?_getD, List.getElem?_eq_getElem h]
  rfl

theorem fe_isOk {i : Nat} (h : i < 256) : ∃ f, fe i = .ok f :=
  index_isOk (by rw [feTable_length]; exact h)

theorem uint64_pred {i : Nat} (h1 : 1 ≤ i) (h2 : i < 256) : uint64 (i + 2 ^ 64 - 1) = i - 1 := by
  unfold uint64
  omega

theorem expIter_slow {σ : Type} (g : Gen σ) (Log Exp : ℚ → ℚ) (s : σ) {k : Nat} {w fi fp : ℚ}
    (hk : ke (expI (g.Uint64 s).1) = .ok k) (hw : we (expI (g.Uint64 s).1) = .ok w)
    (hj : k ≤ expJ (g.Uint64 s).1) (hi : expI (g.Uint64 s).1 ≠ 0)
    (hfi : fe (expI (g.Uint64 s).1) = .ok fi)
    (hfp : fe (uint64 (expI (g.Uint64 s).1 + 2 ^ 64 - 1)) = .ok fp)
    (ht : fi + (g.Float64 (g.Uint64 s).2).1 * (fp - fi) < Exp (-((expJ (g.Uint64 s).1 : ℚ) * w))) :
    expIter g Log Exp s
      = .ok (.slowAccept ((expJ (g.Uint64 s).1 : ℚ) * w) (g.Float64 (g.Uint64 s).2).2) := by
  unfold expIter
  simp only [hk, hw, hfi, hfp]
  simp [bind, Except.bind, Nat.not_lt.2 hj, hi, pure, Except.pure, ht]

theorem expIter_reject {σ : Type} (g : Gen σ) (Log Exp : ℚ → ℚ) (s : σ) {k : Nat}
    {w fi fp : ℚ}
    (hk : ke (expI (g.Uint64 s).1) = .ok k) (hw : we (expI (g.Uint64 s).1) = .ok w)
    (hj : k ≤ expJ (g.Uint64 s).1) (hi : expI (g.Uint64 s).1 ≠ 0)
    (hfi : fe (expI (g.Uint64 s).1) = .ok fi)
    (hfp : fe (uint64 (expI (g.Uint64 s).1 + 2 ^ 64 - 1)) = .ok fp)
    (ht : ¬ fi + (g.Float64 (g.Uint64 s).2).1 * (fp - fi)
      < Exp (-((expJ (g.Uint64 s).1 : ℚ) * w))) :
    expIter g Log Exp s = .ok (.reject (g.Float64 (g.Uint64 s).2).2) := by
  unfold expIter
  simp only [hk, hw, hfi, hfp]
  simp [bind, Except.bind, Nat.not_lt.2 hj, hi, pure, Except.pure, ht]

theorem expIter_isOk {σ : Type} (g : Gen σ) (Log Exp : ℚ → ℚ) (s : σ) :
    ∃ o, expIter g Log Exp s = .ok o := by
  obtain ⟨k, hk⟩ := ke_expI_isOk (g.Uint64 s).1
  obtain ⟨w, hw⟩ := we_expI_isOk (g.Uint64 s).1
  by_cases hj : expJ (g.Uint64 s).1 < k
  · exact ⟨_, expIter_fast g Log Exp s hk hw hj⟩
  · have hj2 : k ≤ expJ (g.Uint64 s).1 := Nat.not_lt.1 hj
    by_cases hi : expI (g.Uint64 s).1 = 0
    · exact ⟨_, expIter_tail g Log Exp s hk hw hj2 hi⟩
    · have hlt := expI_lt (g.Uint64 s).1
      obtain ⟨fi, hfi⟩ := fe_isOk hlt
      have hpred := uint64_pred (Nat.pos_of_ne_zero hi) hlt
      obtain ⟨fp, hfp⟩ := fe_isOk (i := uint64 (expI (g.Uint64 s).1 + 2 ^ 64 - 1))
        (by rw [hpred]; omega)
      by_cases ht : fi + (g.Float64 (g.Uint64 s).2).1 * (fp - fi)
          < Exp (-((expJ (g.Uint64 s).1 : ℚ) * w))
      · exact ⟨_, expIter_slow g Log Exp s hk hw hj2 hi hfi hfp ht⟩
      · exact ⟨_, expIter_reject g Log Exp s hk hw hj2 hi hfi hfp ht⟩

theorem ExpFloat64_error {σ : Type} (g : Gen σ) (Log Exp : ℚ → ℚ) :
    ∀ (fuel : Nat) (s : σ) (e : Fault), ExpFloat64 g Log Exp fuel s = .error e → e = .outOfFuel
  | 0, s, e, h => by
    rw [ExpFloat64_zero] at h
    cases h
    rfl
  | fuel + 1, s, e, h => by
    rw [ExpFloat64_succ] at h
    obtain ⟨o, ho⟩ := expIter_isOk g Log Exp s
    rw [ho] at h
    cases o with
    | fastAccept x s1 => cases h
    | tail x s1 => cases h
    | slowAccept x s1 => cases h
    | reject s1 => exact ExpFloat64_error g Log Exp fuel s1 e h

/-- C12: `ke`, `we` and `fe` hold 256 entries each; for every raw word `v` the
index `i = v & 0xFF` is below 256, and when `i >= 1` the index `i - 1` computed
on 64 bits does not wrap and is at most 254; no iteration of `ExpFloat64` hits
an index out of range, so a run can only fail by running out of fuel, although
the index `i - 1` computed at `i = 0` would be out of range. -/
theorem table_accesses_in_bounds :
    keTable.length = 256 ∧ weTable.length = 256 ∧ feTable.length = 256 ∧
    (∀ v : Nat, expI v < 256 ∧
      (1 ≤ expI v → uint64 (expI v + 2 ^ 64 - 1) = expI v - 1 ∧ expI v - 1 ≤ 254)) ∧
    (∀ (σ : Type) (g : Gen σ) (Log Exp : ℚ → ℚ) (s : σ),
      (∃ o, expIter g Log Exp s = .ok o) ∧
      ∀ (fuel : Nat) (e : Fault), ExpFloat64 g Log Exp fuel s = .error e → e = .outOfFuel) ∧
    fe (uint64 (0 + 2 ^ 64 - 1)) = .error .indexOutOfRange := by
  refine ⟨keTable_length, weTable_length, feTable_length, fun v => ?_, fun σ g Log Exp s => ?_,
    ?_⟩
  · have h := expI_lt v
    refine ⟨h, fun h1 => ⟨uint64_pred h1 h, ?_⟩⟩
    omega
  · exact ⟨expIter_isOk g Log Exp s, fun fuel e => ExpFloat64_error g Log Exp fuel s e⟩
  · have h : feTable[uint64 (0 + 2 ^ 64 - 1)]? = none := by
      rw [List.getElem?_eq_none_iff, feTable_length]
      unfold uint64
      norm_num
    unfold fe index
    rw [h]

/-- Witness for C12 at the raw word `0xFFFFFFFFFFFFFFFF`, whose index is 255:
the index of the previous layer is 254. -/
theorem table_accesses_in_bounds_witness :
    expI 0xFFFFFFFFFFFFFFFF < 256 ∧
      uint64 (expI 0xFFFFFFFFFFFFFFFF + 2 ^ 64 - 1) = expI 0xFFFFFFFFFFFFFFFF - 1 ∧
      expI 0xFFFFFFFFFFFFFFFF - 1 ≤ 254 :=
  ⟨(table_accesses_in_bounds.2.2.2.1 0xFFFFFFFFFFFFFFFF).1,
    (table_accesses_in_bounds.2.2.2.1 0xFFFFFFFFFFFFFFFF).2
      (by rw [expI_eq]; norm_num)⟩

/-! ## `ExpFloat64`: the non-fast branches -/

set_option maxRecDepth 100000 in
theorem we_one : we 1 = .ok 1.486674039973914e-11 := rfl

set_option maxRecDepth 100000 in
theorem fe_zero : fe 0 = .ok 1 := rfl

set_option maxRecDepth 100000 in
theorem fe_one : fe 1 = .ok 0.9381436808621765 := rfl

theorem ExpFloat64_of_slow {σ : Type} (g : Gen σ) (Log Exp : ℚ → ℚ) (s s1 : σ) (x : ℚ)
    (fuel : Nat) (h : expIter g Log Exp s = .ok (.slowAccept x s1)) :
    ExpFloat64 g Log Exp (fuel + 1) s = .ok (x, s1) := by
  rw [ExpFloat64_succ, h]

theorem ExpFloat64_of_reject {σ : Type} (g : Gen σ) (Log Exp : ℚ → ℚ) (s s1 : σ)
    (fuel : Nat) (h : expIter g Log Exp s = .ok (.reject s1)) :
    ExpFloat64 g Log Exp (fuel + 1) s = ExpFloat64 g Log Exp fuel s1 := by
  rw [ExpFloat64_succ, h]

/-! ## Invariants of the tables -/

set_option maxRecDepth 1000000 in
theorem feTable_pos : ∀ i < 256, 0 < feTable.getD i 0 := by
  decide!

set_option maxRecDepth 1000000 in
theorem feTable_step : ∀ i < 256, 1 ≤ i → feTable.getD i 0 < feTable.getD (i - 1) 0 := by
  decide!

set_option maxRecDepth 1000000 in
theorem feTable_min : ∀ i < 256, feTable.getD 255 0 ≤ feTable.getD i 0 := by
  decide!

set_option maxRecDepth 1000000 in
theorem weTable_layer : ∀ i < 256, 2 ≤ i →
    0 < weTable.getD i 0 ∧
      ((keTable.getD i 0 : ℚ) - 1) * weTable.getD i 0 < 2 ^ 32 * weTable.getD (i - 1) 0 := by
  decide!

theorem fe_eq_getD {i : Nat} (h : i < 256) : fe i = .ok (feTable.getD i 0) :=
  index_eq_getD 0 (by rw [feTable_length]; exact h)

theorem we_eq_getD {i : Nat} (h : i < 256) : we i = .ok (weTable.getD i 0) :=
  index_eq_getD 0 (by rw [weTable_length]; exact h)

theorem ke_eq_getD {i : Nat} (h : i < 256) : ke i = .ok (keTable.getD i 0) :=
  index_eq_getD 0 (by rw [keTable_length]; exact h)

theorem natCast_le_pred {j k : Nat} (h : j < k) : (j : ℚ) ≤ (k : ℚ) - 1 := by
  have h1 : j + 1 ≤ k := h
  have h2 : ((j + 1 : Nat) : ℚ) ≤ (k : ℚ) := by exact_mod_cast h1
  push_cast at h2
  linarith

/-- C13: `fe[0] = 1`; every entry of `fe` is strictly positive; `fe` is
strictly decreasing, and for every `i >= 1` and every `u2` in `[0, 1)` the
slow-path threshold `fe[i] + u2 * (fe[i-1] - fe[i])` lies in `[fe[i], fe[i-1])`;
`fe[255]` is the smallest entry (exact arithmetic on the listed decimals). -/
theorem fe_density_invariant :
    fe 0 = .ok 1 ∧
    (∀ i : Nat, i < 256 → ∃ f : ℚ, fe i = .ok f ∧ 0 < f) ∧
    (∀ i : Nat, 1 ≤ i → i < 256 →
      ∃ (fi fp : ℚ), fe i = .ok fi ∧ fe (i - 1) = .ok fp ∧ fi < fp ∧
        ∀ u2 : ℚ, 0 ≤ u2 → u2 < 1 →
          fi ≤ fi + u2 * (fp - fi) ∧ fi + u2 * (fp - fi) < fp) ∧
    (∃ m : ℚ, fe 255 = .ok m ∧ ∀ i : Nat, i < 256 → ∃ f : ℚ, fe i = .ok f ∧ m ≤ f) := by
  refine ⟨fe_zero, fun i hi => ⟨_, fe_eq_getD hi, feTable_pos i hi⟩, fun i h1 hi => ?_,
    ⟨_, fe_eq_getD (by norm_num), fun i hi => ⟨_, fe_eq_getD hi, feTable_min i hi⟩⟩⟩
  have hlt := feTable_step i hi h1
  refine ⟨_, _, fe_eq_getD hi, fe_eq_getD (by omega), hlt, fun u2 h0 hu => ?_⟩
  have hd : 0 < feTable.getD (i - 1) 0 - feTable.getD i 0 := by linarith
  constructor
  · have := mul_nonneg h0 hd.le
    linarith
  · have h2 : 0 < (1 - u2) * (feTable.getD (i - 1) 0 - feTable.getD i 0) :=
      mul_pos (by linarith) hd
    linarith

/-- Witness for C13 at layer `i = 1` with `u2 = 1 / 2`: the threshold lies
between `fe[1] = 0.9381436808621765` and `fe[0] = 1`. -/
theorem fe_density_invariant_witness :
    ∃ (fi fp : ℚ), fe 1 = .ok fi ∧ fe (1 - 1) = .ok fp ∧ fi < fp ∧
      fi ≤ fi + 1 / 2 * (fp - fi) ∧ fi + 1 / 2 * (fp - fi) < fp := by
  obtain ⟨fi, fp, h1, h2, h3, h4⟩ := fe_density_invariant.2.2.1 1 (by norm_num) (by norm_num)
  exact ⟨fi, fp, h1, h2, h3, h4 (1 / 2) (by norm_num) (by norm_num)⟩

/-- C15: for every layer `i` in `2..255` and every `j < ke[i]`,
`j * we[i] < 2^32 * we[i-1]`; for layer `0` and every `j < ke[0]`,
`j * we[0] < re`; `ke[1] = 0`, and an iteration whose layer index is `1` never
ends in the fast-accept branch (exact arithmetic on the listed values). -/
theorem fastAccept_under_curve :
    (∀ i j : Nat, 2 ≤ i → i < 256 →
      ∃ (k : Nat) (w wp : ℚ), ke i = .ok k ∧ we i = .ok w ∧ we (i - 1) = .ok wp ∧
        (j < k → (j : ℚ) * w < 2 ^ 32 * wp)) ∧
    (∃ (k : Nat) (w : ℚ), ke 0 = .ok k ∧ we 0 = .ok w ∧
      ∀ j : Nat, j < k → (j : ℚ) * w < re) ∧
    ke 1 = .ok 0 ∧
    (∀ (σ : Type) (g : Gen σ) (Log Exp : ℚ → ℚ) (s s1 : σ) (x : ℚ),
      expI (g.Uint64 s).1 = 1 → expIter g Log Exp s ≠ .ok (.fastAccept x s1)) := by
  refine ⟨fun i j h2 hi => ?_, ⟨_, _, ke_zero, we_zero, fun j hj => ?_⟩, ke_one,
    fun σ g Log Exp s s1 x hi => ?_⟩
  · obtain ⟨hw, hb⟩ := weTable_layer i hi h2
    refine ⟨_, _, _, ke_eq_getD hi, we_eq_getD hi, we_eq_getD (by omega), fun hj => ?_⟩
    have hle := natCast_le_pred hj
    have := mul_le_mul_of_nonneg_right hle hw.le
    linarith
  · have hle := natCast_le_pred hj
    have hw : (0 : ℚ) ≤ 2.0249554585039273e-09 := by norm_num
    have := mul_le_mul_of_nonneg_right hle hw
    have hb : (((0xe290a139 : Nat) : ℚ) - 1) * 2.0249554585039273e-09 < re := by
      unfold re
      norm_num
    linarith
  · have hk : ke (expI (g.Uint64 s).1) = .ok 0 := by rw [hi]; exact ke_one
    have hw : we (expI (g.Uint64 s).1) = .ok 1.486674039973914e-11 := by rw [hi]; exact we_one
    have hfi : fe (expI (g.Uint64 s).1) = .ok 0.9381436808621765 := by rw [hi]; exact fe_one
    have hfp : fe (uint64 (expI (g.Uint64 s).1 + 2 ^ 64 - 1)) = .ok 1 := by
      rw [hi]
      exact fe_zero
    have hne : expI (g.Uint64 s).1 ≠ 0 := by omega
    by_cases ht : (0.9381436808621765 : ℚ) + (g.Float64 (g.Uint64 s).2).1
        * (1 - 0.9381436808621765)
        < Exp (-((expJ (g.Uint64 s).1 : ℚ) * 1.486674039973914e-11))
    · rw [expIter_slow g Log Exp s hk hw (Nat.zero_le _) hne hfi hfp ht]
      intro h
      cases h
    · rw [expIter_reject g Log Exp s hk hw (Nat.zero_le _) hne hfi hfp ht]
      intro h
      cases h

/-- Witness for C15 at layer `i = 2` and `j = 0x9beadebb = ke[2] - 1`, the
largest fast-accepted `j` of that layer, and at `j = ke[0] - 1` for layer `0`. -/
theorem fastAccept_under_curve_witness :
    (∃ (k : Nat) (w wp : ℚ), ke 2 = .ok k ∧ we 2 = .ok w ∧ we (2 - 1) = .ok wp ∧
      ((0x9beadebb : Nat) : ℚ) * w < 2 ^ 32 * wp) ∧
    ((0xe290a138 : Nat) : ℚ) * 2.0249554585039273e-09 < re := by
  constructor
  · obtain ⟨k, w, wp, hk, hw, hwp, h⟩ :=
      fastAccept_under_curve.1 2 0x9beadebb (by norm_num) (by norm_num)
    have hk2 := hk
    rw [ke_two] at hk2
    cases hk2
    exact ⟨_, w, wp, hk, hw, hwp, h (by norm_num)⟩
  · obtain ⟨k, w, hk, hw, h⟩ := fastAccept_under_curve.2.1
    rw [ke_zero] at hk
    rw [we_zero] at hw
    cases hk
    cases hw
    exact h 0xe290a138 (by norm_num)

/-! ## `ExpFloat64`: the rejection loop -/

theorem ExpFloat64_ok_branch {σ : Type} (g : Gen σ) (Log Exp : ℚ → ℚ) :
    ∀ (fuel : Nat) (s s1 : σ) (x : ℚ), ExpFloat64 g Log Exp fuel s = .ok (x, s1) →
      ∃ s0 : σ, expIter g Log Exp s0 = .ok (.fastAccept x s1) ∨
        expIter g Log Exp s0 = .ok (.tail x s1) ∨
        expIter g Log Exp s0 = .ok (.slowAccept x s1)
  | 0, s, s1, x, h => by
    rw [ExpFloat64_zero] at h
    cases h
  | fuel + 1, s, s1, x, h => by
    rw [ExpFloat64_succ] at h
    obtain ⟨o, ho⟩ := expIter_isOk g Log Exp s
    rw [ho] at h
    cases o with
    | fastAccept y s2 =>
      cases h
      exact ⟨s, Or.inl ho⟩
    | tail y s2 =>
      cases h
      exact ⟨s, Or.inr (Or.inl ho)⟩
    | slowAccept y s2 =>
      cases h
      exact ⟨s, Or.inr (Or.inr ho)⟩
    | reject s2 => exact ExpFloat64_ok_branch g Log Exp fuel s2 s1 x h

theorem expIter_tape_zero (Log Exp : ℚ → ℚ) (ws : List Nat) (us : List ℚ) :
    expIter tapeGen Log Exp (0 :: ws, us) = .ok (.fastAccept 0 (ws, us)) := by
  have hI : expI (tapeGen.Uint64 ((0 :: ws, us) : List Nat × List ℚ)).1 = 0 := by
    simp [tapeGen, uint64, expI_eq]
  have h := expIter_fast tapeGen Log Exp ((0 :: ws, us) : List Nat × List ℚ)
    (k := 0xe290a139) (w := 2.0249554585039273e-09)
    (by rw [hI]; exact ke_zero) (by rw [hI]; exact we_zero)
    (by simp [tapeGen, uint64, expJ_eq])
  rw [h]
  simp [tapeGen, uint64, expJ_eq]

theorem expIter_tape_reject (Log Exp : ℚ → ℚ) (u : ℚ) (ws : List Nat) (us : List ℚ)
    (ht : ¬ (0.9381436808621765 : ℚ) + u * (1 - 0.9381436808621765)
      < Exp (-(4294967295 * 1.486674039973914e-11))) :
    expIter tapeGen Log Exp (0xFFFFFFFF01 :: ws, u :: us) = .ok (.reject (ws, us)) := by
  have hI : expI (tapeGen.Uint64 ((0xFFFFFFFF01 :: ws, u :: us) : List Nat × List ℚ)).1 = 1 := by
    simp [tapeGen, uint64, expI_eq]
  have hJ : expJ (tapeGen.Uint64 ((0xFFFFFFFF01 :: ws, u :: us) : List Nat × List ℚ)).1
      = 4294967295 := by
    simp [tapeGen, uint64, expJ_eq]
  have h := @expIter_reject _ tapeGen Log Exp
    ((0xFFFFFFFF01 :: ws, u :: us) : List Nat × List ℚ)
    0 1.486674039973914e-11 0.9381436808621765 1
    (by rw [hI]; exact ke_one) (by rw [hI]; exact we_one) (Nat.zero_le _)
    (by rw [hI]; norm_num) (by rw [hI]; exact fe_one) (by rw [hI]; exact fe_zero)
    (by
      rw [hJ]
      simpa [tapeGen] using ht)
  rw [h]
  simp [tapeGen]

theorem ExpFloat64_tape_skip (Log Exp : ℚ → ℚ) (u : ℚ)
    (ht : ¬ (0.9381436808621765 : ℚ) + u * (1 - 0.9381436808621765)
      < Exp (-(4294967295 * 1.486674039973914e-11))) :
    ∀ (n m : Nat) (ws : List Nat) (us : List ℚ),
      ExpFloat64 tapeGen Log Exp (n + m)
          (List.replicate n 0xFFFFFFFF01 ++ ws, List.replicate n u ++ us)
        = ExpFloat64 tapeGen Log Exp m (ws, us)
  | 0, m, ws, us => by simp
  | n + 1, m, ws, us => by
    have e : n + 1 + m = (n + m) + 1 := by omega
    rw [e, List.replicate_succ, List.replicate_succ, List.cons_append, List.cons_append,
      ExpFloat64_of_reject tapeGen Log Exp _ _ (n + m) (expIter_tape_reject Log Exp u _ _ ht)]
    exact ExpFloat64_tape_skip Log Exp u ht n m ws us

theorem ExpFloat64_tape_outOfFuel (Log Exp : ℚ → ℚ) (u : ℚ)
    (ht : ¬ (0.9381436808621765 : ℚ) + u * (1 - 0.9381436808621765)
      < Exp (-(4294967295 * 1.486674039973914e-11))) :
    ∀ (fuel n : Nat) (ws : List Nat) (us : List ℚ), fuel ≤ n →
      ExpFloat64 tapeGen Log Exp fuel
          (List.replicate n 0xFFFFFFFF01 ++ ws, List.replicate n u ++ us)
        = .error .outOfFuel
  | 0, n, ws, us, _ => ExpFloat64_zero _ _ _ _
  | fuel + 1, 0, ws, us, h => by omega
  | fuel + 1, n + 1, ws, us, h => by
    rw [List.replicate_succ, List.replicate_succ, List.cons_append, List.cons_append,
      ExpFloat64_of_reject tapeGen Log Exp _ _ fuel (expIter_tape_reject Log Exp u _ _ ht)]
    exact ExpFloat64_tape_outOfFuel Log Exp u ht fuel n ws us (by omega)

theorem exists_rejected_uniform (e : ℚ) (he : e < 1) :
    ∃ u : ℚ, 0 ≤ u ∧ u < 1 ∧
      ¬ (0.9381436808621765 : ℚ) + u * (1 - 0.9381436808621765) < e := by
  have hd : (0 : ℚ) < 1 - 0.9381436808621765 := by norm_num
  by_cases h : e ≤ 0.9381436808621765
  · refine ⟨0, le_refl _, by norm_num, ?_⟩
    rw [zero_mul, add_zero]
    exact not_lt.2 h
  · have h1 : (0.9381436808621765 : ℚ) < e := not_le.1 h
    refine ⟨(e - 0.9381436808621765) / (1 - 0.9381436808621765), ?_, ?_, ?_⟩
    · exact div_nonneg (by linarith) hd.le
    · rw [div_lt_one hd]
      linarith
    · rw [div_mul_cancel₀ _ hd.ne']
      intro h2
      linarith

/-- C14: `ExpFloat64` returns only a value produced by the fast-accept, tail
or slow-accept branch of some iteration; and for every `N`, provided
`exp(-x) < 1` at `x = (2^32 - 1) * we[1]`, there are `N + 1` raw words with
layer index `>= 1` and `j >= ke[i]` and `N + 1` uniforms in `[0, 1)` on which
the first `N + 1` iterations are all rejected (no amount of fuel up to `N + 1`
suffices) and the call still returns at iteration `N + 2`. -/
theorem ExpFloat64_loop_uncapped :
    (∀ (σ : Type) (g : Gen σ) (Log Exp : ℚ → ℚ) (fuel : Nat) (s s1 : σ) (x : ℚ),
      ExpFloat64 g Log Exp fuel s = .ok (x, s1) →
        ∃ s0 : σ, expIter g Log Exp s0 = .ok (.fastAccept x s1) ∨
          expIter g Log Exp s0 = .ok (.tail x s1) ∨
          expIter g Log Exp s0 = .ok (.slowAccept x s1)) ∧
    (∀ (N : Nat) (Log Exp : ℚ → ℚ), Exp (-(4294967295 * 1.486674039973914e-11)) < 1 →
      ∃ (ws : List Nat) (us : List ℚ),
        ws.length = N + 1 ∧ us.length = N + 1 ∧
        (∀ v ∈ ws, v < 2 ^ 64 ∧ 1 ≤ expI v ∧ ∃ k, ke (expI v) = .ok k ∧ k ≤ expJ v) ∧
        (∀ u ∈ us, 0 ≤ u ∧ u < 1) ∧
        (∀ fuel : Nat, fuel ≤ N + 1 →
          ExpFloat64 tapeGen Log Exp fuel (ws ++ [0], us) = .error .outOfFuel) ∧
        ExpFloat64 tapeGen Log Exp (N + 2) (ws ++ [0], us) = .ok (0, ([], []))) := by
  refine ⟨fun σ g Log Exp fuel s s1 x h => ExpFloat64_ok_branch g Log Exp fuel s s1 x h,
    fun N Log Exp hE => ?_⟩
  obtain ⟨u, hu0, hu1, ht⟩ := exists_rejected_uniform _ hE
  refine ⟨List.replicate (N + 1) 0xFFFFFFFF01, List.replicate (N + 1) u,
    List.length_replicate _ _, List.length_replicate _ _, fun v hv => ?_, fun y hy => ?_,
    fun fuel hf => ?_, ?_⟩
  · rw [List.eq_of_mem_replicate hv]
    have hI : expI 0xFFFFFFFF01 = 1 := by rw [expI_eq]
    refine ⟨by norm_num, by rw [hI], 0, by rw [hI]; exact ke_one, Nat.zero_le _⟩
  · rw [List.eq_of_mem_replicate hy]
    exact ⟨hu0, hu1⟩
  · have h := ExpFloat64_tape_outOfFuel Log Exp u ht fuel (N + 1) [0] [] hf
    rw [List.append_nil] at h
    exact h
  · have h := ExpFloat64_tape_skip Log Exp u ht (N + 1) 1 [0] []
    rw [List.append_nil] at h
    rw [show N + 2 = N + 1 + 1 from rfl, h]
    exact ExpFloat64_of_fast tapeGen Log Exp _ _ _ 0 (expIter_tape_zero Log Exp [] [])

/-- Witness for C14 with `N = 2` and an `Exp` that is constantly `0`: three
rejected iterations, then a return at the fourth. -/
theorem ExpFloat64_loop_uncapped_witness :
    ∃ (ws : List Nat) (us : List ℚ),
      ws.length = 2 + 1 ∧ us.length = 2 + 1 ∧
      (∀ v ∈ ws, v < 2 ^ 64 ∧ 1 ≤ expI v ∧ ∃ k, ke (expI v) = .ok k ∧ k ≤ expJ v) ∧
      (∀ u ∈ us, 0 ≤ u ∧ u < 1) ∧
      (∀ fuel : Nat, fuel ≤ 2 + 1 →
        ExpFloat64 tapeGen (fun _ => 0) (fun _ => 0) fuel (ws ++ [0], us)
          = .error .outOfFuel) ∧
      ExpFloat64 tapeGen (fun _ => 0) (fun _ => 0) (2 + 2) (ws ++ [0], us)
        = .ok (0, ([], [])) :=
  ExpFloat64_loop_uncapped.2 2 (fun _ => 0) (fun _ => 0) (by norm_num)

/-! ## `ExpFloat64` over an arbitrary `float64` arithmetic: the branches -/

theorem expIterF_fast {F σ : Type} (ops : Float64Ops F) (g : GenF F σ) (s : σ) {k : Nat}
    {w : ℚ} (hk : ke (expI (g.Uint64 s).1) = .ok k) (hw : we (expI (g.Uint64 s).1) = .ok w)
    (hj : expJ (g.Uint64 s).1 < k) :
    expIterF ops g s
      = .ok (.fastAccept (ops.mul (ops.ofUint64 (expJ (g.Uint64 s).1)) (ops.lit w))
          (g.Uint64 s).2) := by
  unfold expIterF
  simp only [hk, hw]
  simp [bind, Except.bind, hj, pure, Except.pure]

theorem expIterF_tail {F σ : Type} (ops : Float64Ops F) (g : GenF F σ) (s : σ) {k : Nat}
    {w : ℚ} (hk : ke (expI (g.Uint64 s).1) = .ok k) (hw : we (expI (g.Uint64 s).1) = .ok w)
    (hj : k ≤ expJ (g.Uint64 s).1) (hi : expI (g.Uint64 s).1 = 0) :
    expIterF ops g s
      = .ok (.tail (ops.sub (ops.lit re) (ops.Log (g.Float64 (g.Uint64 s).2).1))
          (g.Float64 (g.Uint64 s).2).2) := by
  unfold expIterF
  simp only [hk, hw]
  simp [bind, Except.bind, Nat.not_lt.2 hj, hi, pure, Except.pure]

theorem expIterF_slow {F σ : Type} (ops : Float64Ops F) (g : GenF F σ) (s : σ) {k : Nat}
    {w fi fp : ℚ}
    (hk : ke (expI (g.Uint64 s).1) = .ok k) (hw : we (expI (g.Uint64 s).1) = .ok w)
    (hj : k ≤ expJ (g.Uint64 s).1) (hi : expI (g.Uint64 s).1 ≠ 0)
    (hfi : fe (expI (g.Uint64 s).1) = .ok fi)
    (hfp : fe (uint64 (expI (g.Uint64 s).1 + 2 ^ 64 - 1)) = .ok fp)
    (ht : ops.lt
        (ops.addMul (ops.lit fi) (g.Float64 (g.Uint64 s).2).1
          (ops.sub (ops.lit fp) (ops.lit fi)))
        (ops.Exp (ops.neg (ops.mul (ops.ofUint64 (expJ (g.Uint64 s).1)) (ops.lit w))))
      = true) :
    expIterF ops g s
      = .ok (.slowAccept (ops.mul (ops.ofUint64 (expJ (g.Uint64 s).1)) (ops.lit w))
          (g.Float64 (g.Uint64 s).2).2) := by
  unfold expIterF
  simp only [hk, hw, hfi, hfp]
  simp [bind, Except.bind, Nat.not_lt.2 hj, hi, pure, Except.pure, ht]

theorem expIterF_reject {F σ : Type} (ops : Float64Ops F) (g : GenF F σ) (s : σ) {k : Nat}
    {w fi fp : ℚ}
    (hk : ke (expI (g.Uint64 s).1) = .ok k) (hw : we (expI (g.Uint64 s).1) = .ok w)
    (hj : k ≤ expJ (g.Uint64 s).1) (hi : expI (g.Uint64 s).1 ≠ 0)
    (hfi : fe (expI (g.Uint64 s).1) = .ok fi)
    (hfp : fe (uint64 (expI (g.Uint64 s).1 + 2 ^ 64 - 1)) = .ok fp)
    (ht : ops.lt
        (ops.addMul (ops.lit fi) (g.Float64 (g.Uint64 s).2).1
          (ops.sub (ops.lit fp) (ops.lit fi)))
        (ops.Exp (ops.neg (ops.mul (ops.ofUint64 (expJ (g.Uint64 s).1)) (ops.lit w))))
      = false) :
    expIterF ops g s = .ok (.reject (g.Float64 (g.Uint64 s).2).2) := by
  unfold expIterF
  simp only [hk, hw, hfi, hfp]
  simp [bind, Except.bind, Nat.not_lt.2 hj, hi, pure, Except.pure, ht]

theorem ExpFloat64F_zero {F σ : Type} (ops : Float64Ops F) (g : GenF F σ) (s : σ) :
    ExpFloat64F ops g 0 s = .error .outOfFuel := rfl

set_option maxRecDepth 100000 in
theorem ExpFloat64F_succ {F σ : Type} (ops : Float64Ops F) (g : GenF F σ) (fuel : Nat)
    (s : σ) :
    ExpFloat64F ops g (fuel + 1) s =
      match expIterF ops g s with
      | .error e => .error e
      | .ok (.fastAccept x s1) => .ok (x, s1)
      | .ok (.tail x s1) => .ok (x, s1)
      | .ok (.slowAccept x s1) => .ok (x, s1)
      | .ok (.reject s1) => ExpFloat64F ops g fuel s1 := by
  rw [ExpFloat64F]

/-- The exact embedding `expIter` is the embedding over an arbitrary arithmetic
taken at the exact rational operations. -/
theorem expIter_eq_expIterF {σ : Type} (g : Gen σ) (Log Exp : ℚ → ℚ) (s : σ) :
    expIter g Log Exp s
      = (expIterF (exactOps Log Exp) (genF g) s).map outcomeOfF := by
  obtain ⟨k, hk⟩ := ke_expI_isOk (g.Uint64 s).1
  obtain ⟨w, hw⟩ := we_expI_isOk (g.Uint64 s).1
  by_cases hj : expJ (g.Uint64 s).1 < k
  · rw [expIter_fast g Log Exp s hk hw hj,
      expIterF_fast (exactOps Log Exp) (genF g) s hk hw hj]
    rfl
  · have hj2 : k ≤ expJ (g.Uint64 s).1 := Nat.not_lt.1 hj
    by_cases hi : expI (g.Uint64 s).1 = 0
    · rw [expIter_tail g Log Exp s hk hw hj2 hi,
        expIterF_tail (exactOps Log Exp) (genF g) s hk hw hj2 hi]
      rfl
    · have hlt := expI_lt (g.Uint64 s).1
      obtain ⟨fi, hfi⟩ := fe_isOk hlt
      have hpred := uint64_pred (Nat.pos_of_ne_zero hi) hlt
      obtain ⟨fp, hfp⟩ := fe_isOk (i := uint64 (expI (g.Uint64 s).1 + 2 ^ 64 - 1))
        (by rw [hpred]; omega)
      by_cases ht : fi + (g.Float64 (g.Uint64 s).2).1 * (fp - fi)
          < Exp (-((expJ (g.Uint64 s).1 : ℚ) * w))
      · rw [expIter_slow g Log Exp s hk hw hj2 hi hfi hfp ht,
          expIterF_slow (exactOps Log Exp) (genF g) s hk hw hj2 hi hfi hfp
            (decide_eq_true ht)]
        rfl
      · rw [expIter_reject g Log Exp s hk hw hj2 hi hfi hfp ht,
          expIterF_reject (exactOps Log Exp) (genF g) s hk hw hj2 hi hfi hfp
            (decide_eq_false ht)]
        rfl

theorem ExpFloat64_eq_ExpFloat64F {σ : Type} (g : Gen σ) (Log Exp : ℚ → ℚ) :
    ∀ (fuel : Nat) (s : σ),
      ExpFloat64 g Log Exp fuel s = ExpFloat64F (exactOps Log Exp) (genF g) fuel s
  | 0, s => rfl
  | fuel + 1, s => by
    rw [ExpFloat64_succ, ExpFloat64F_succ, expIter_eq_expIterF]
    cases h : expIterF (exactOps Log Exp) (genF g) s with
    | error e => rfl
    | ok o =>
      cases o with
      | fastAccept x s1 => rfl
      | tail x s1 => rfl
      | slowAccept x s1 => rfl
      | reject s1 => exact ExpFloat64_eq_ExpFloat64F g Log Exp fuel s1

/-- C11: for every `float64` arithmetic and every raw word `v`, the lookups
`ke[i]`, `we[i]` succeed and, when `j >= ke[i]`: if `i = 0` the call returns
`re - ln(u)` for the next uniform `u`; if `i >= 1` the lookups `fe[i]`,
`fe[i-1]` succeed, one uniform `u2` is drawn, the call returns
`x = float64(j) * we[i]` when the test
`fe[i] + u2 * (fe[i-1] - fe[i]) < exp(-x)` of that arithmetic holds, and when
it fails the iteration is abandoned and the call continues as a fresh call from
the generator state left after the two draws, a function of that state
alone. -/
theorem ExpFloat64F_nonFast {F σ : Type} (ops : Float64Ops F) (g : GenF F σ) (s : σ)
    (fuel : Nat) :
    ∃ (k : Nat) (w : ℚ),
      ke (expI (g.Uint64 s).1) = .ok k ∧ we (expI (g.Uint64 s).1) = .ok w ∧
      (k ≤ expJ (g.Uint64 s).1 →
        (expI (g.Uint64 s).1 = 0 →
          expIterF ops g s
              = .ok (.tail (ops.sub (ops.lit re) (ops.Log (g.Float64 (g.Uint64 s).2).1))
                  (g.Float64 (g.Uint64 s).2).2) ∧
            ExpFloat64F ops g (fuel + 1) s
              = .ok (ops.sub (ops.lit re) (ops.Log (g.Float64 (g.Uint64 s).2).1),
                  (g.Float64 (g.Uint64 s).2).2)) ∧
        (1 ≤ expI (g.Uint64 s).1 →
          ∃ (fi fp : ℚ),
            fe (expI (g.Uint64 s).1) = .ok fi ∧ fe (expI (g.Uint64 s).1 - 1) = .ok fp ∧
            (ops.lt
                (ops.addMul (ops.lit fi) (g.Float64 (g.Uint64 s).2).1
                  (ops.sub (ops.lit fp) (ops.lit fi)))
                (ops.Exp (ops.neg
                  (ops.mul (ops.ofUint64 (expJ (g.Uint64 s).1)) (ops.lit w)))) = true →
              expIterF ops g s
                  = .ok (.slowAccept
                      (ops.mul (ops.ofUint64 (expJ (g.Uint64 s).1)) (ops.lit w))
                      (g.Float64 (g.Uint64 s).2).2) ∧
                ExpFloat64F ops g (fuel + 1) s
                  = .ok (ops.mul (ops.ofUint64 (expJ (g.Uint64 s).1)) (ops.lit w),
                      (g.Float64 (g.Uint64 s).2).2)) ∧
            (ops.lt
                (ops.addMul (ops.lit fi) (g.Float64 (g.Uint64 s).2).1
                  (ops.sub (ops.lit fp) (ops.lit fi)))
                (ops.Exp (ops.neg
                  (ops.mul (ops.ofUint64 (expJ (g.Uint64 s).1)) (ops.lit w)))) = false →
              expIterF ops g s = .ok (.reject (g.Float64 (g.Uint64 s).2).2) ∧
                ExpFloat64F ops g (fuel + 1) s
                  = ExpFloat64F ops g fuel (g.Float64 (g.Uint64 s).2).2))) := by
  obtain ⟨k, hk⟩ := ke_expI_isOk (g.Uint64 s).1
  obtain ⟨w, hw⟩ := we_expI_isOk (g.Uint64 s).1
  refine ⟨k, w, hk, hw, fun hj => ⟨fun hi => ?_, fun hi => ?_⟩⟩
  · have h := expIterF_tail ops g s hk hw hj hi
    refine ⟨h, ?_⟩
    rw [ExpFloat64F_succ, h]
  · have hlt := expI_lt (g.Uint64 s).1
    have hne : expI (g.Uint64 s).1 ≠ 0 := by omega
    have hpred := uint64_pred hi hlt
    obtain ⟨fi, hfi⟩ := fe_isOk hlt
    obtain ⟨fp, hfp⟩ := fe_isOk (i := expI (g.Uint64 s).1 - 1) (by omega)
    have hfp2 : fe (uint64 (expI (g.Uint64 s).1 + 2 ^ 64 - 1)) = .ok fp := by
      rw [hpred]
      exact hfp
    refine ⟨fi, fp, hfi, hfp, fun ht => ?_, fun ht => ?_⟩
    · have h := expIterF_slow ops g s hk hw hj hne hfi hfp2 ht
      refine ⟨h, ?_⟩
      rw [ExpFloat64F_succ, h]
    · have h := expIterF_reject ops g s hk hw hj hne hfi hfp2 ht
      refine ⟨h, ?_⟩
      rw [ExpFloat64F_succ, h]

/-- Witness for C11 on the rounding arithmetic `roundedOps` with `Exp`
constantly `1`: at the raw word `1` (layer `1`, `j = 0 >= ke[1] = 0`) and the
uniform `1 - 2^-53` the rounded threshold is exactly `1`, the test `1 < 1`
fails, the iteration is rejected and the call goes on with the next word. -/
theorem ExpFloat64F_nonFast_witness :
    expIterF (roundedOps (fun _ => 0) (fun _ => 1)) (genF tapeGen) ([1, 0], [1 - 1 / 2 ^ 53])
        = .ok (.reject ([0], [])) ∧
      ExpFloat64F (roundedOps (fun _ => 0) (fun _ => 1)) (genF tapeGen) 2
          ([1, 0], [1 - 1 / 2 ^ 53])
        = ExpFloat64F (roundedOps (fun _ => 0) (fun _ => 1)) (genF tapeGen) 1 ([0], []) := by
  obtain ⟨k, w, hk, hw, h⟩ := ExpFloat64F_nonFast (roundedOps (fun _ => 0) (fun _ => 1))
    (genF tapeGen) (([1, 0], [1 - 1 / 2 ^ 53]) : List Nat × List ℚ) 1
  have hi : expI ((genF tapeGen).Uint64
      (([1, 0], [1 - 1 / 2 ^ 53]) : List Nat × List ℚ)).1 = 1 := by
    simp [genF, tapeGen, uint64, expI_eq]
  have hj : expJ ((genF tapeGen).Uint64
      (([1, 0], [1 - 1 / 2 ^ 53]) : List Nat × List ℚ)).1 = 0 := by
    simp [genF, tapeGen, uint64, expJ_eq]
  have hs : ((genF tapeGen).Float64 ((genF tapeGen).Uint64
      (([1, 0], [1 - 1 / 2 ^ 53]) : List Nat × List ℚ)).2)
      = (1 - 1 / 2 ^ 53, (([0], []) : List Nat × List ℚ)) := by
    simp [genF, tapeGen]
  rw [hi] at hk hw h
  rw [ke_one] at hk
  rw [we_one] at hw
  cases hk
  cases hw
  rw [hj, hs] at h
  obtain ⟨fi, fp, hfi, hfp, -, hrej⟩ := (h (Nat.le_refl 0)).2 (Nat.le_refl 1)
  rw [fe_one] at hfi
  rw [show (1 : Nat) - 1 = 0 from rfl, fe_zero] at hfp
  cases hfi
  cases hfp
  exact hrej (by decide!)

end rand
